import Mathlib

/-!
# McGill course visualizer: verified model of the core logic

A shallow embedding of the three algorithmic components of the repository
(`js/main.js` and the second, richer copy of the frontend script):

* the closure resolver `getRelevantCoursesForProgram`,
* the graph builder `generateGraphElements` / `addRequirementGraphElements` /
  `displayGraphForCourses`,
* the view-state derivation performed by `handleNetworkClick`, and the state
  transition of `handleProgramChange`.

JavaScript arrays are Lean lists, JS `Set` objects are lists kept
duplicate-free by the same `has`-guarded insertions the source performs, and
the numeric render attributes (opacities, border widths) are rationals, the
exact values of the decimal literals in the source.  Fields that are purely
decorative and never read back by the logic (tooltip `title` strings on
edges, the opaque `details` payload stored for the sidebar, vis.js physics
options) are not modelled.
-/

/-- JS `String.prototype.toUpperCase()` on the ASCII operator strings
(`"and"`, `"or"`, ...) stored in requirement nodes. -/
def jsToUpper (s : String) : String := ⟨s.data.map Char.toUpper⟩

/-- JS `courseCode.split("-")[0]`: the prefix of the string before the first
`-` (the whole string when no `-` occurs). -/
def codePfx (s : String) : String := ⟨s.data.takeWhile (fun c => c ≠ '-')⟩

/-- A JS `Set` built by inserting the elements of `l` in order: keeps the
first occurrence of each element and drops later duplicates. -/
def dedupKeepFirst (l : List String) : List String :=
  l.foldl (fun acc c => if acc.contains c then acc else acc ++ [c]) []

/-! ## Data model: requirement trees, course records, programs -/

/-- A parsed requirement node, the tagged union stored in
`prerequisites_parsed` / `corequisites_parsed` (`type` field values
`COURSE`, `LOGICAL_OPERATOR`, `TEXTUAL`, `N_OF_LIST`). -/
inductive Req where
  | course (code : String)
  | logical (operator : String) (conditions : List Req)
  | textual (text : String)
  | nOfList (count : Nat) (conditions : List Req)

/-- A course record of `coursesData`.  Display-only fields that the core
logic never reads (`description`, `credits`, the raw requirement texts) are
not modelled. -/
structure Course where
  code : String
  title : String
  prerequisites_parsed : List Req
  corequisites_parsed : List Req

/-- A program record of `programsData`. -/
structure Program where
  program : String
  courses : List String

/-- The catalog lookup idiom `coursesData.find((c) => c.code === code)`. -/
def findCourse (cat : List Course) (code : String) : Option Course :=
  cat.find? (fun c => c.code == code)

/-- The codes present in the catalog. -/
def catCodes (cat : List Course) : List String := cat.map (·.code)

/-! ## ClosureResolver: `getRelevantCoursesForProgram` -/

/-- The mutable state of the BFS in `getRelevantCoursesForProgram`:
`result` is the `relevantCodes` set (insertion order), `pending` the codes
pushed onto the shared queue while the current course is processed. -/
structure ClosSt where
  result : List String
  pending : List String

/-- The inner `addDependencies` recursion: a `COURSE` reference that exists
in the catalog and is not yet in the result set is added to the result and
enqueued; a `LOGICAL_OPERATOR`'s conditions are scanned recursively;
`TEXTUAL` and `N_OF_LIST` nodes are not traversed. -/
def addDeps (cat : List Course) : Req → ClosSt → ClosSt
  | .course code, st =>
      if (findCourse cat code).isSome ∧ code ∉ st.result then
        { result := st.result ++ [code], pending := st.pending ++ [code] }
      else st
  | .logical _ conds, st => addDepsList cat conds st
  | .textual _, st => st
  | .nOfList _ _, st => st
where addDepsList (cat : List Course) : List Req → ClosSt → ClosSt
  | [], st => st
  | r :: rs, st => addDepsList cat rs (addDeps cat r st)

/-- The `while (head < queue.length)` loop of `getRelevantCoursesForProgram`.
The loop always terminates because every enqueued code is a catalog code not
yet in the result set; `fuel` is an upper bound on the remaining iterations
(`closureGo_fuel_sufficient` below shows the fuel chosen by
`computeRelevantSet` always lets the queue drain completely). -/
def closureGo (cat : List Course) : Nat → List String → List String → List String
  | 0, _, result => result
  | _ + 1, [], result => result
  | fuel + 1, currentCode :: rest, result =>
      match findCourse cat currentCode with
      | none => closureGo cat fuel rest result
      | some course =>
          let st1 := addDeps.addDepsList cat course.prerequisites_parsed
            { result := result, pending := [] }
          let st2 := addDeps.addDepsList cat course.corequisites_parsed st1
          closureGo cat fuel (rest ++ st2.pending) st2.result

/-- The initial frontier: only those seed codes present in the catalog. -/
def initialQueue (cat : List Course) (programCourseCodes : List String) : List String :=
  programCourseCodes.filter (fun code => (findCourse cat code).isSome)

/-- `getRelevantCoursesForProgram`: the transitive closure of the seed codes
under `COURSE`/`LOGICAL_OPERATOR` requirement references.  (Named after the
spec's `computeRelevantSet`.) -/
def computeRelevantSet (cat : List Course) (programCourseCodes : List String) : List String :=
  let queue := initialQueue cat programCourseCodes
  closureGo cat (queue.length + cat.length) queue (dedupKeepFirst queue)

/-- The course codes examined by `addDependencies`: references reachable
through `COURSE` and `LOGICAL_OPERATOR` nodes only. -/
def coLoRefs : Req → List String
  | .course code => [code]
  | .logical _ conds => coLoRefsList conds
  | .textual _ => []
  | .nOfList _ _ => []
where coLoRefsList : List Req → List String
  | [] => []
  | r :: rs => coLoRefs r ++ coLoRefsList rs

/-! ## GraphBuilder: `generateGraphElements` and friends -/

/-- `extractGroup` of `js/main.js`: the subject prefix of the code, with the
neuroscience-related prefixes mapped to the `"Neuroscience"` display group. -/
def extractGroup (courseCode : String) : String :=
  let pfx := codePfx courseCode
  if pfx = "ANAT" ∨ pfx = "BIOL" ∨ pfx = "CHEM" ∨ pfx = "NEUR" ∨
     pfx = "NSCI" ∨ pfx = "PHGY" ∨ pfx = "PSYC" ∨ pfx = "PSYT" then
    "Neuroscience"
  else pfx

/-- A vis.js node object as assembled by the builder.  `size` is `none` when
the source omits the field; the opaque `details` payload and the tooltip
`title`'s of edges are not modelled. -/
structure GNode where
  id : String
  label : String
  group : String
  title : String
  size : Option Nat
deriving DecidableEq, Repr

/-- A vis.js edge object as assembled by the builder.  `arrows` is the
constant `"to"` and the `color` object is determined by `baseColorType`, so
neither is modelled separately. -/
structure GEdge where
  fromId : String
  toId : String
  dashes : Bool
  baseColorType : String
  id : String
deriving DecidableEq, Repr

/-- The `idCounter = { logic: 0, textual: 0, nOfList: 0 }` object shared by
one whole `generateGraphElements` pass. -/
structure IdCounter where
  logic : Nat
  textual : Nat
  nOfList : Nat
deriving DecidableEq, Repr

/-- The mutable arrays and counters threaded through the builder. -/
structure BuildSt where
  nodes : List GNode
  edges : List GEdge
  idc : IdCounter
deriving DecidableEq, Repr

/-- The idiom `if (!nodesArray.some((n) => n.id === id)) nodesArray.push(n)`. -/
def pushNodeIfAbsent (st : BuildSt) (n : GNode) : BuildSt :=
  if st.nodes.any (fun m => m.id == n.id) then st
  else { st with nodes := st.nodes ++ [n] }

/-- The idiom `if (!edgesArray.some((e) => e.id === id)) edgesArray.push(e)`. -/
def pushEdgeIfAbsent (st : BuildSt) (e : GEdge) : BuildSt :=
  if st.edges.any (fun f => f.id == e.id) then st
  else { st with edges := st.edges ++ [e] }

/-- `addRequirementGraphElements`: the recursive emitter for one requirement
node.  `ty` is the relation tag, `"prereq"` or `"coreq"`; `orig` is the
course whose requirement tree is being walked.  The `displaySet` parameter
of the source is never read inside the function and is omitted.  (The source
guards each recursion into `conditions` by `length > 0`; recursing on an
empty list is the identity, so the guard is behaviourally irrelevant.) -/
def addRequirementGraphElements (cat : List Course) :
    Req → (targetNodeId : String) → (ty : String) → (orig : String) → BuildSt → BuildSt
  | .course courseCode, targetNodeId, ty, _orig, st =>
      match findCourse cat courseCode with
      | some courseData =>
          let st1 := pushNodeIfAbsent st
            { id := courseCode, label := courseCode, group := extractGroup courseCode,
              title := if courseData.title = "" then courseCode else courseData.title,
              size := none }
          pushEdgeIfAbsent st1
            { fromId := courseCode, toId := targetNodeId, dashes := ty == "coreq",
              baseColorType := ty, id := courseCode ++ "_" ++ targetNodeId ++ "_" ++ ty }
      | none => st
  | .logical operator conds, targetNodeId, ty, orig, st =>
      let cnt := st.idc.logic + 1
      let oper := jsToUpper operator
      let logicNodeGroup := if oper = "AND" then "AndNode" else "OrNode"
      let logicNodeId :=
        "logic_" ++ (orig ++ "_" ++ ty ++ "_" ++ oper ++ "_" ++ Nat.repr cnt)
      let st0 := { st with idc := { st.idc with logic := cnt } }
      let st1 := pushNodeIfAbsent st0
        { id := logicNodeId, label := oper, group := logicNodeGroup,
          title := oper ++ " condition for " ++ orig, size := some 12 }
      let st2 := pushEdgeIfAbsent st1
        { fromId := logicNodeId, toId := targetNodeId, dashes := false,
          baseColorType := ty, id := logicNodeId ++ "_" ++ targetNodeId ++ "_" ++ ty }
      addRequirementList cat conds logicNodeId ty orig st2
  | .textual text, targetNodeId, ty, orig, st =>
      let cnt := st.idc.textual + 1
      let textualNodeId := "textual_" ++ (orig ++ "_" ++ ty ++ "_" ++ Nat.repr cnt)
      let nodeLabel := if text = "" then "Textual requirement" else text
      let st0 := { st with idc := { st.idc with textual := cnt } }
      let st1 := pushNodeIfAbsent st0
        { id := textualNodeId, label := nodeLabel, group := "TextualNode",
          title := "Textual: " ++ nodeLabel ++ " (for " ++ orig ++ ")", size := none }
      pushEdgeIfAbsent st1
        { fromId := textualNodeId, toId := targetNodeId, dashes := false,
          baseColorType := ty, id := textualNodeId ++ "_" ++ targetNodeId ++ "_" ++ ty }
  | .nOfList count conds, targetNodeId, ty, orig, st =>
      if count = 1 then
        let cnt := st.idc.logic + 1
        let orNodeId :=
          "logic_" ++ (orig ++ "_" ++ ty ++ "_OR_N_OF_1_" ++ Nat.repr cnt)
        let st0 := { st with idc := { st.idc with logic := cnt } }
        let st1 := pushNodeIfAbsent st0
          { id := orNodeId, label := "OR", group := "OrNode",
            title := "OR condition (1 of list) for " ++ orig, size := some 12 }
        let st2 := pushEdgeIfAbsent st1
          { fromId := orNodeId, toId := targetNodeId, dashes := false,
            baseColorType := ty, id := orNodeId ++ "_" ++ targetNodeId ++ "_" ++ ty }
        addRequirementList cat conds orNodeId ty orig st2
      else
        let cnt := st.idc.nOfList + 1
        let nOfListNodeId :=
          "n_of_list_" ++ (orig ++ "_" ++ ty ++ "_" ++ Nat.repr count ++ "_" ++ Nat.repr cnt)
        let nodeLabel := Nat.repr count ++ " of:"
        let st0 := { st with idc := { st.idc with nOfList := cnt } }
        let st1 := pushNodeIfAbsent st0
          { id := nOfListNodeId, label := nodeLabel, group := "NOfListNode",
            title := nodeLabel ++ " (for " ++ orig ++ ")", size := none }
        let st2 := pushEdgeIfAbsent st1
          { fromId := nOfListNodeId, toId := targetNodeId, dashes := false,
            baseColorType := ty, id := nOfListNodeId ++ "_" ++ targetNodeId ++ "_" ++ ty }
        addRequirementList cat conds nOfListNodeId ty orig st2
where addRequirementList (cat : List Course) :
    List Req → String → String → String → BuildSt → BuildSt
  | [], _, _, _, st => st
  | r :: rs, tgt, ty, orig, st =>
      addRequirementList cat rs tgt ty orig (addRequirementGraphElements cat r tgt ty orig st)

/-- The node/edge collections returned by the builder. -/
structure GraphElems where
  nodes : List GNode
  edges : List GEdge
deriving DecidableEq, Repr

/-- The body of the `displaySet.forEach` loop of `generateGraphElements`:
emit the course node (unguarded push) and walk both requirement trees. -/
def processCourseCode (cat : List Course) (st : BuildSt) (courseCode : String) : BuildSt :=
  match findCourse cat courseCode with
  | none => st
  | some course =>
      let st1 := { st with nodes := st.nodes ++
        [{ id := course.code, label := course.code,
           title := course.code ++ ": " ++ course.title,
           group := extractGroup course.code, size := none }] }
      let st2 := addRequirementGraphElements.addRequirementList cat
        course.prerequisites_parsed course.code "prereq" course.code st1
      addRequirementGraphElements.addRequirementList cat
        course.corequisites_parsed course.code "coreq" course.code st2

/-- `generateGraphElements`: build nodes and edges for the (deduplicated)
display set. -/
def generateGraphElements (cat : List Course) (courseCodesToDisplay : List String) : GraphElems :=
  let st := (dedupKeepFirst courseCodesToDisplay).foldl (processCourseCode cat)
    { nodes := [], edges := [], idc := { logic := 0, textual := 0, nOfList := 0 } }
  { nodes := st.nodes, edges := st.edges }

/-- The `Map`-based node deduplication of `displayGraphForCourses`: the first
node with a given ID is kept, later ones are dropped. -/
def dedupNodesGo (seen : List String) : List GNode → List GNode
  | [] => []
  | n :: rest =>
      if seen.contains n.id then dedupNodesGo seen rest
      else n :: dedupNodesGo (seen ++ [n.id]) rest

/-- `displayGraphForCourses` (the second, overriding definition in each
file): clear, early-return on an empty display list, build, deduplicate
nodes by ID, and hand nodes and edges to the vis.js data sets. -/
def displayGraphForCourses (cat : List Course) (courseCodesToDisplay : List String) : GraphElems :=
  if courseCodesToDisplay.isEmpty then { nodes := [], edges := [] }
  else
    let ge := generateGraphElements cat courseCodesToDisplay
    { nodes := dedupNodesGo [] ge.nodes, edges := ge.edges }

/-- The course codes referenced anywhere inside a requirement tree through
nodes the builder recurses into (`LOGICAL_OPERATOR` and `N_OF_LIST`
junctions; `TEXTUAL` nodes have no children). -/
def courseRefsAll : Req → List String
  | .course code => [code]
  | .logical _ conds => courseRefsAllList conds
  | .textual _ => []
  | .nOfList _ conds => courseRefsAllList conds
where courseRefsAllList : List Req → List String
  | [] => []
  | r :: rs => courseRefsAll r ++ courseRefsAllList rs

/-! ## ViewStateEngine: render constants and the click/state handlers
(from the richer copy of the frontend script) -/

/-- `VERY_DIMMED_OPACITY = 0.05`. -/
def VERY_DIMMED_OPACITY : ℚ := 5 / 100

/-- `VERY_DIMMED_TEXT_COLOR = '#d9d9d9'`. -/
def VERY_DIMMED_TEXT_COLOR : String := "#d9d9d9"

/-- `DEFAULT_NODE_TEXT_COLOR = '#333333'`. -/
def DEFAULT_NODE_TEXT_COLOR : String := "#333333"

/-- A vis.js edge color object `{ color, highlight }`. -/
structure EdgeColor where
  color : String
  highlight : String
deriving DecidableEq, Repr

def DIM_PREREQ_COLOR : EdgeColor :=
  { color := "rgba(41, 128, 185, 0.15)", highlight := "rgba(52, 152, 219, 0.25)" }

def DIM_COREQ_COLOR : EdgeColor :=
  { color := "rgba(39, 174, 96, 0.15)", highlight := "rgba(46, 204, 113, 0.25)" }

def HIGHLIGHT_PREREQ_COLOR : EdgeColor := { color := "#2980b9", highlight := "#3498db" }

def HIGHLIGHT_COREQ_COLOR : EdgeColor := { color := "#27ae60", highlight := "#2ecc71" }

/-- The font attribute object assembled for a node update (`multi` and
`align`, copied through verbatim for textual nodes, are not modelled). -/
structure FontProps where
  size : Nat
  face : String
  bold : Bool
  strokeWidth : ℚ
  strokeColor : String
  color : String
deriving DecidableEq, Repr

/-- The fields of a `network.groups.groups[g]` entry read by the handlers;
a `none` field models an absent (JS-falsy) property. -/
structure GroupCfg where
  fontSize : Option Nat
  fontFace : Option String
  fontBold : Option Bool
  fontStrokeWidth : Option ℚ
  fontStrokeColor : Option String
  fontColor : Option String
  borderWidth : Option ℚ

/-- The fields of `network.options.nodes` read by the handlers. -/
structure NodeDefaults where
  fontSize : Option Nat
  fontFace : Option String
  fontBold : Option Bool
  fontStrokeWidth : Option ℚ
  fontStrokeColor : Option String
  borderWidth : Option ℚ

/-- The "determine default/group specific visual properties" prelude shared
by `handleNetworkClick` and `handleCategoryFilterChange`: resolve the
normal font properties and border width of a node from the global defaults
and its group's configuration. -/
def resolveNodeBase (defaults : NodeDefaults) (cfg : Option GroupCfg) : FontProps × ℚ :=
  let fp : FontProps :=
    { size := defaults.fontSize.getD 12
      face := defaults.fontFace.getD "Arial"
      bold := defaults.fontBold.getD true
      strokeWidth := defaults.fontStrokeWidth.getD 1
      strokeColor := defaults.fontStrokeColor.getD DEFAULT_NODE_TEXT_COLOR
      color := DEFAULT_NODE_TEXT_COLOR }
  let bw : ℚ := defaults.borderWidth.getD 1
  match cfg with
  | none => (fp, bw)
  | some g =>
      ({ size := g.fontSize.getD fp.size
         face := g.fontFace.getD fp.face
         bold := g.fontBold.getD fp.bold
         strokeWidth := g.fontStrokeWidth.getD fp.strokeWidth
         strokeColor := g.fontStrokeColor.getD fp.strokeColor
         color := g.fontColor.getD fp.color },
       g.borderWidth.getD bw)

/-- The `{ id, opacity, font, borderWidth }` update pushed to the node data
set for one node. -/
structure NodeUpdate where
  id : String
  opacity : ℚ
  font : FontProps
  borderWidth : ℚ
deriving DecidableEq, Repr

/-- The `node.group && network.groups.groups[node.group]` lookup. -/
def lookupGroupCfg (groupsCfg : String → Option GroupCfg) (group : String) : Option GroupCfg :=
  if group = "" then none else groupsCfg group

/-- The per-node render derivation of `handleNetworkClick` (step 3): apply
the category filter, then — only for in-category nodes — the cumulative
click-selection highlight. -/
def renderNodeAttrs (defaults : NodeDefaults) (groupsCfg : String → Option GroupCfg)
    (selectedCategory : String) (selectedIds : List String) (highlightIds : List String)
    (node : GNode) : NodeUpdate :=
  let base := resolveNodeBase defaults (lookupGroupCfg groupsCfg node.group)
  let fp := base.1
  let bw := base.2
  let isNodeInSelectedCategory := selectedCategory = "all" ∨ node.group = selectedCategory
  let isAnyNodeClickSelected := selectedIds ≠ []
  if ¬ isNodeInSelectedCategory then
    { id := node.id, opacity := VERY_DIMMED_OPACITY,
      font := { fp with color := VERY_DIMMED_TEXT_COLOR, strokeWidth := 0 },
      borderWidth := 0 }
  else if isAnyNodeClickSelected then
    if node.id ∈ highlightIds then
      { id := node.id, opacity := 1, font := fp, borderWidth := bw }
    else
      { id := node.id, opacity := VERY_DIMMED_OPACITY,
        font := { fp with color := VERY_DIMMED_TEXT_COLOR, strokeWidth := 0 },
        borderWidth := 0 }
  else
    { id := node.id, opacity := 1, font := fp, borderWidth := bw }

/-- Modelled after the external rendering library's
`network.getConnectedNodes(id)`: the nodes joined to `id` by an incoming or
outgoing edge of the current edge collection. -/
def getConnectedNodes (edges : List GEdge) (nodeId : String) : List String :=
  edges.foldr (fun e acc =>
    if e.fromId = nodeId then e.toId :: acc
    else if e.toId = nodeId then e.fromId :: acc
    else acc) []

/-- Modelled after the external rendering library's
`network.getConnectedEdges(id)`: the IDs of the edges incident to `id`. -/
def getConnectedEdges (edges : List GEdge) (nodeId : String) : List String :=
  (edges.filter (fun e => e.fromId == nodeId || e.toId == nodeId)).map (·.id)

/-- Step 2 of `handleNetworkClick`: the `nodesToFullyHighlight` set — every
selected node together with its direct neighbors.  (A JS `Set`; only
membership is ever consumed.) -/
def nodesToFullyHighlight (edges : List GEdge) (selectedIds : List String) : List String :=
  selectedIds.foldl (fun acc s => acc ++ s :: getConnectedNodes edges s) []

/-- Step 2 of `handleNetworkClick`: the `edgesToFullyHighlight_Ids` set. -/
def edgesToFullyHighlight (edges : List GEdge) (selectedIds : List String) : List String :=
  selectedIds.foldl (fun acc s => acc ++ getConnectedEdges edges s) []

/-- `selectedForHighlighting_NodeIds.add(id)`: JS `Set.add`, a no-op when
the ID is already present. -/
def addToSelection (sel : List String) (id : String) : List String :=
  if sel.contains id then sel else sel ++ [id]

/-- The view-relevant application state: the cumulative selection set, the
category dropdown value, the current graph, the sidebar, and the render
attributes last pushed to the vis.js data sets. -/
structure AppState where
  selectedIds : List String
  categoryFilter : String
  nodes : List GNode
  edges : List GEdge
  sidebarCourse : Option String
  sidebarVisible : Bool
  nodeAttrs : List NodeUpdate
  edgeColors : List (String × EdgeColor)

/-- The edge recoloring of `handleNetworkClick` (step 4). -/
def recolorEdge (selectedIds : List String) (hlEdgeIds : List String) (e : GEdge) :
    String × EdgeColor :=
  let baseType :=
    if e.baseColorType ≠ "" then e.baseColorType
    else if e.dashes then "coreq" else "prereq"
  if selectedIds ≠ [] ∧ e.id ∈ hlEdgeIds then
    (e.id, if baseType = "prereq" then HIGHLIGHT_PREREQ_COLOR else HIGHLIGHT_COREQ_COLOR)
  else
    (e.id, if baseType = "prereq" then DIM_PREREQ_COLOR else DIM_COREQ_COLOR)

/-- `handleNetworkClick`: `clickedNodeId` is `params.nodes[0]` when a node
was hit, `none` for a background click.  A node click updates the sidebar
when the ID matches a course and adds the ID to the cumulative selection; a
background click clears the selection; then node and edge render attributes
are recomputed in full. -/
def handleNetworkClickSt (cat : List Course) (defaults : NodeDefaults)
    (groupsCfg : String → Option GroupCfg) (st : AppState)
    (clickedNodeId : Option String) : AppState :=
  let st1 :=
    match clickedNodeId with
    | some id =>
        let stSel :=
          match findCourse cat id with
          | some course =>
              { st with sidebarCourse := some course.code, sidebarVisible := true }
          | none => st
        { stSel with selectedIds := addToSelection stSel.selectedIds id }
    | none => { st with selectedIds := [] }
  let hlNodes := nodesToFullyHighlight st.edges st1.selectedIds
  let hlEdges := edgesToFullyHighlight st.edges st1.selectedIds
  { st1 with
    nodeAttrs := st.nodes.map
      (renderNodeAttrs defaults groupsCfg st.categoryFilter st1.selectedIds hlNodes)
    edgeColors := st.edges.map (recolorEdge st1.selectedIds hlEdges) }

/-- The display list that `handleProgramChange` hands to
`displayGraphForCourses`: empty for the placeholder option, every catalog
code for `"all"`, and the program's own `courses` array for a named
program (empty again when the name is unknown). -/
def displayCodesForProgramChange (coursesData : List Course) (programsData : List Program)
    (selectedProgramName : String) : List String :=
  if selectedProgramName = "" then []
  else if selectedProgramName = "all" then coursesData.map (·.code)
  else
    match programsData.find? (fun p => p.program == selectedProgramName) with
    | some program => program.courses
    | none => []

/-- `handleProgramChange`: hide the sidebar and rebuild the graph data sets
from scratch for the newly selected program.  (The loading indicator is
DOM-only and not modelled.) -/
def handleProgramChangeSt (coursesData : List Course) (programsData : List Program)
    (st : AppState) (selectedProgramName : String) : AppState :=
  let ge := displayGraphForCourses coursesData
    (displayCodesForProgramChange coursesData programsData selectedProgramName)
  { st with sidebarVisible := false, nodes := ge.nodes, edges := ge.edges }

/-! ## General-purpose lemmas about the embedded primitives -/

theorem string_ne_append_of_length_lt (p s t : String) (h : t.length < p.length) :
    t ≠ p ++ s := by
  intro heq
  have hlen : t.length = p.length + s.length := by
    rw [heq]; simp [String.length_append]
  omega

theorem findCourse_isSome_iff (cat : List Course) (c : String) :
    (findCourse cat c).isSome ↔ c ∈ catCodes cat := by
  simp only [findCourse, catCodes, List.find?_isSome, List.mem_map, beq_iff_eq]

theorem findCourse_code {cat : List Course} {x : String} {c : Course}
    (h : findCourse cat x = some c) : c.code = x := by
  have := List.find?_some h
  simpa [beq_iff_eq] using this

theorem findCourse_mem {cat : List Course} {x : String} {c : Course}
    (h : findCourse cat x = some c) : c ∈ cat :=
  List.mem_of_find?_eq_some h

theorem mem_dedupKeepFirst_aux (x : String) (l acc : List String) :
    x ∈ l.foldl (fun acc c => if acc.contains c then acc else acc ++ [c]) acc ↔
      x ∈ acc ∨ x ∈ l := by
  induction l generalizing acc with
  | nil => simp
  | cons a rest ih =>
      simp only [List.foldl_cons]
      by_cases ha : acc.contains a
      · rw [if_pos ha, ih]
        have : a ∈ acc := by simpa using ha
        constructor
        · rintro (h | h)
          · exact Or.inl h
          · exact Or.inr (List.mem_cons_of_mem _ h)
        · rintro (h | h)
          · exact Or.inl h
          · rcases List.mem_cons.mp h with rfl | h
            · exact Or.inl this
            · exact Or.inr h
      · rw [if_neg ha, ih]
        constructor
        · rintro (h | h)
          · rcases List.mem_append.mp h with h | h
            · exact Or.inl h
            · exact Or.inr (by simpa using Or.inl (List.mem_singleton.mp h))
          · exact Or.inr (List.mem_cons_of_mem _ h)
        · rintro (h | h)
          · exact Or.inl (List.mem_append.mpr (Or.inl h))
          · rcases List.mem_cons.mp h with rfl | h
            · exact Or.inl (List.mem_append.mpr (Or.inr (by simp)))
            · exact Or.inr h

theorem mem_dedupKeepFirst (x : String) (l : List String) :
    x ∈ dedupKeepFirst l ↔ x ∈ l := by
  simpa [dedupKeepFirst] using mem_dedupKeepFirst_aux x l []

/-! ## C1: what `handleProgramChange` actually hands to the builder -/

/-- Sample catalog: `AA` has the single prerequisite `BB`; `BB` has no
requirements. -/
def sampleCatAB : List Course :=
  [{ code := "AA", title := "Course AA",
     prerequisites_parsed := [.course "BB"], corequisites_parsed := [] },
   { code := "BB", title := "Course BB",
     prerequisites_parsed := [], corequisites_parsed := [] }]

/-- Sample program list: one program `P` whose seed list is just `AA`. -/
def samplePrograms : List Program := [{ program := "P", courses := ["AA"] }]

/-- C1, counterexample: selecting program `P` hands `["AA"]` — the raw seed
list — to the graph build, while the ClosureResolver's output on the same
seeds is `["AA", "BB"]`; the two differ, so the input to the build does not
equal `computeRelevantSet(program.courses)`. -/
theorem c1_counterexample :
    displayCodesForProgramChange sampleCatAB samplePrograms "P" = ["AA"] ∧
    computeRelevantSet sampleCatAB ["AA"] = ["AA", "BB"] ∧
    displayCodesForProgramChange sampleCatAB samplePrograms "P" ≠
      computeRelevantSet sampleCatAB ["AA"] := by
  refine ⟨by decide, by decide, by decide⟩

/-- C1, amended: for a named program the graph handed to the rendering layer
is built directly from the program's raw `courses` seed list —
`getRelevantCoursesForProgram` is not applied to it. -/
theorem c1_theorem (coursesData : List Course) (programsData : List Program)
    (st : AppState) (name : String) (p : Program)
    (h1 : name ≠ "") (h2 : name ≠ "all")
    (hfind : programsData.find? (fun q => q.program == name) = some p) :
    (handleProgramChangeSt coursesData programsData st name).nodes =
      (displayGraphForCourses coursesData p.courses).nodes ∧
    (handleProgramChangeSt coursesData programsData st name).edges =
      (displayGraphForCourses coursesData p.courses).edges := by
  simp [handleProgramChangeSt, displayCodesForProgramChange, h1, h2, hfind]

/-- Witness for `c1_theorem` at the sample program table. -/
theorem c1_witness :
    (handleProgramChangeSt sampleCatAB samplePrograms
        { selectedIds := [], categoryFilter := "all", nodes := [], edges := [],
          sidebarCourse := none, sidebarVisible := false,
          nodeAttrs := [], edgeColors := [] } "P").nodes =
      (displayGraphForCourses sampleCatAB ["AA"]).nodes ∧
    (handleProgramChangeSt sampleCatAB samplePrograms
        { selectedIds := [], categoryFilter := "all", nodes := [], edges := [],
          sidebarCourse := none, sidebarVisible := false,
          nodeAttrs := [], edgeColors := [] } "P").edges =
      (displayGraphForCourses sampleCatAB ["AA"]).edges := by
  have h := c1_theorem sampleCatAB samplePrograms
    { selectedIds := [], categoryFilter := "all", nodes := [], edges := [],
      sidebarCourse := none, sidebarVisible := false,
      nodeAttrs := [], edgeColors := [] } "P"
    { program := "P", courses := ["AA"] } (by decide) (by decide) (by rfl)
  exact h

/-! ## C2: a program change does not clear the selection set -/

/-- A state whose selection still holds the ID `AA` from a previous graph. -/
def staleSelState : AppState :=
  { selectedIds := ["AA"], categoryFilter := "Science",
    nodes := [], edges := [], sidebarCourse := none, sidebarVisible := true,
    nodeAttrs := [], edgeColors := [] }

/-- C2, counterexample: after a program change the selection set still
contains the stale ID `AA`; it is not empty, contradicting the claim that
the render state after a program change carries an empty selection. -/
theorem c2_counterexample :
    (handleProgramChangeSt sampleCatAB samplePrograms staleSelState "P").selectedIds
      = ["AA"] ∧
    (handleProgramChangeSt sampleCatAB samplePrograms staleSelState "P").selectedIds
      ≠ [] := by
  refine ⟨by decide, by decide⟩

/-- C2, amended: a program change fully rebuilds the graph collections and
leaves `categoryFilter` unchanged, but it also leaves `selectedNodeIds`
unchanged — stale IDs from the previous graph remain in the set — and does
not recompute any render attributes. -/
theorem c2_theorem (coursesData : List Course) (programsData : List Program)
    (st : AppState) (name : String) :
    (handleProgramChangeSt coursesData programsData st name).categoryFilter =
      st.categoryFilter ∧
    (handleProgramChangeSt coursesData programsData st name).selectedIds =
      st.selectedIds ∧
    (handleProgramChangeSt coursesData programsData st name).nodeAttrs = st.nodeAttrs ∧
    (handleProgramChangeSt coursesData programsData st name).nodes =
      (displayGraphForCourses coursesData
        (displayCodesForProgramChange coursesData programsData name)).nodes ∧
    (handleProgramChangeSt coursesData programsData st name).edges =
      (displayGraphForCourses coursesData
        (displayCodesForProgramChange coursesData programsData name)).edges := by
  simp [handleProgramChangeSt]

/-! ## C7: category filtering overrides selection in the render derivation -/

/-- C7: whenever the category filter is not `"all"` and a node's group
differs from it, the click handler's render derivation assigns the node the
fully-dimmed attributes — `VERY_DIMMED_OPACITY` (= 0.05), the dimmed neutral
text color `#d9d9d9`, zero text stroke and zero border — no matter what the
selection and highlight sets contain. -/
theorem c7_theorem (defaults : NodeDefaults) (groupsCfg : String → Option GroupCfg)
    (filter : String) (selectedIds highlightIds : List String) (node : GNode)
    (hfilter : filter ≠ "all") (hout : node.group ≠ filter) :
    (renderNodeAttrs defaults groupsCfg filter selectedIds highlightIds node).opacity =
      VERY_DIMMED_OPACITY ∧
    (renderNodeAttrs defaults groupsCfg filter selectedIds highlightIds node).font.color =
      VERY_DIMMED_TEXT_COLOR ∧
    (renderNodeAttrs defaults groupsCfg filter selectedIds highlightIds node).font.strokeWidth
      = 0 ∧
    (renderNodeAttrs defaults groupsCfg filter selectedIds highlightIds node).borderWidth
      = 0 := by
  have hcond : ¬ (filter = "all" ∨ node.group = filter) := by
    rintro (h | h)
    · exact hfilter h
    · exact hout h
  simp [renderNodeAttrs, hcond]

/-- Witness for `c7_theorem`: an out-of-category node that is itself
selected and in the highlight set still renders fully dimmed. -/
theorem c7_witness :
    (renderNodeAttrs
        { fontSize := none, fontFace := none, fontBold := none,
          fontStrokeWidth := none, fontStrokeColor := none, borderWidth := none }
        (fun _ => none) "ECSE" ["MATH-140"] ["MATH-140"]
        { id := "MATH-140", label := "MATH-140", group := "MATH",
          title := "MATH-140: Calculus 1", size := none }).opacity =
      VERY_DIMMED_OPACITY ∧
    (renderNodeAttrs
        { fontSize := none, fontFace := none, fontBold := none,
          fontStrokeWidth := none, fontStrokeColor := none, borderWidth := none }
        (fun _ => none) "ECSE" ["MATH-140"] ["MATH-140"]
        { id := "MATH-140", label := "MATH-140", group := "MATH",
          title := "MATH-140: Calculus 1", size := none }).font.color =
      VERY_DIMMED_TEXT_COLOR ∧
    (renderNodeAttrs
        { fontSize := none, fontFace := none, fontBold := none,
          fontStrokeWidth := none, fontStrokeColor := none, borderWidth := none }
        (fun _ => none) "ECSE" ["MATH-140"] ["MATH-140"]
        { id := "MATH-140", label := "MATH-140", group := "MATH",
          title := "MATH-140: Calculus 1", size := none }).font.strokeWidth = 0 ∧
    (renderNodeAttrs
        { fontSize := none, fontFace := none, fontBold := none,
          fontStrokeWidth := none, fontStrokeColor := none, borderWidth := none }
        (fun _ => none) "ECSE" ["MATH-140"] ["MATH-140"]
        { id := "MATH-140", label := "MATH-140", group := "MATH",
          title := "MATH-140: Calculus 1", size := none }).borderWidth = 0 :=
  c7_theorem _ _ "ECSE" _ _ _ (by decide) (by decide)

/-! ## Highlight-set membership lemmas (for C9/C10) -/

theorem mem_hl_foldl_of_mem_acc (edges : List GEdge) (sel acc : List String)
    (x : String) (hx : x ∈ acc) :
    x ∈ sel.foldl (fun acc s => acc ++ s :: getConnectedNodes edges s) acc := by
  induction sel generalizing acc with
  | nil => simpa using hx
  | cons a rest ih =>
      simp only [List.foldl_cons]
      exact ih _ (List.mem_append.mpr (Or.inl hx))

theorem mem_nodesToFullyHighlight_of_selected (edges : List GEdge)
    (sel : List String) (s : String) (hs : s ∈ sel) :
    s ∈ nodesToFullyHighlight edges sel ∧
      ∀ u ∈ getConnectedNodes edges s, u ∈ nodesToFullyHighlight edges sel := by
  unfold nodesToFullyHighlight
  suffices h : ∀ (acc : List String),
      s ∈ sel.foldl (fun acc s => acc ++ s :: getConnectedNodes edges s) acc ∧
      ∀ u ∈ getConnectedNodes edges s,
        u ∈ sel.foldl (fun acc s => acc ++ s :: getConnectedNodes edges s) acc from
    h []
  induction sel with
  | nil => cases hs
  | cons a rest ih =>
      intro acc
      rcases List.mem_cons.mp hs with rfl | hmem
      · constructor
        · exact mem_hl_foldl_of_mem_acc edges rest _ s
            (List.mem_append.mpr (Or.inr (List.mem_cons_self _ _)))
        · intro u hu
          exact mem_hl_foldl_of_mem_acc edges rest _ u
            (List.mem_append.mpr (Or.inr (List.mem_cons_of_mem _ hu)))
      · have h2 := ih hmem (acc ++ a :: getConnectedNodes edges a)
        simpa only [List.foldl_cons] using h2

theorem mem_addToSelection_self (sel : List String) (id : String) :
    id ∈ addToSelection sel id := by
  unfold addToSelection
  by_cases h : sel.contains id
  · rw [if_pos h]; simpa using h
  · rw [if_neg h]; simp

/-! ## C9: a click carrying an ID absent from the graph is not a no-op -/

/-- A small live state: one course node, nothing selected. -/
def c9State : AppState :=
  { selectedIds := [], categoryFilter := "all",
    nodes := [{ id := "AA", label := "AA", group := "AA",
                title := "AA: Course AA", size := none }],
    edges := [], sidebarCourse := none, sidebarVisible := false,
    nodeAttrs := [], edgeColors := [] }

/-- Some neutral vis.js option records for concrete evaluations. -/
def plainDefaults : NodeDefaults :=
  { fontSize := none, fontFace := none, fontBold := none,
    fontStrokeWidth := none, fontStrokeColor := none, borderWidth := none }

/-- C9, counterexample: a click event carrying `"ZZZ"`, an ID absent from
the current node collection, mutates view state — the stale ID is added to
the cumulative selection set. -/
theorem c9_counterexample :
    ("ZZZ" ∉ c9State.nodes.map (·.id)) ∧
    (handleNetworkClickSt sampleCatAB plainDefaults (fun _ => none) c9State
        (some "ZZZ")).selectedIds = ["ZZZ"] ∧
    (handleNetworkClickSt sampleCatAB plainDefaults (fun _ => none) c9State
        (some "ZZZ")).selectedIds ≠ c9State.selectedIds := by
  refine ⟨by decide, by rfl, by decide⟩

/-- C9, amended: a click carrying a node ID that is absent from the current
graph and matches no catalog course still adds the ID to the cumulative
selection set and recomputes all render attributes against the enlarged
selection; only the sidebar is left untouched, and no error is raised (the
handler is total). -/
theorem c9_theorem (cat : List Course) (defaults : NodeDefaults)
    (groupsCfg : String → Option GroupCfg) (st : AppState) (z : String)
    (_hgraph : z ∉ st.nodes.map (·.id)) (hcourse : findCourse cat z = none) :
    (handleNetworkClickSt cat defaults groupsCfg st (some z)).selectedIds =
      addToSelection st.selectedIds z ∧
    (handleNetworkClickSt cat defaults groupsCfg st (some z)).sidebarCourse =
      st.sidebarCourse ∧
    (handleNetworkClickSt cat defaults groupsCfg st (some z)).sidebarVisible =
      st.sidebarVisible ∧
    (handleNetworkClickSt cat defaults groupsCfg st (some z)).nodeAttrs =
      st.nodes.map (renderNodeAttrs defaults groupsCfg st.categoryFilter
        (addToSelection st.selectedIds z)
        (nodesToFullyHighlight st.edges (addToSelection st.selectedIds z))) := by
  simp [handleNetworkClickSt, hcourse]

/-- Witness for `c9_theorem` at the concrete state of the counterexample. -/
theorem c9_witness :
    (handleNetworkClickSt sampleCatAB plainDefaults (fun _ => none) c9State
        (some "ZZZ")).selectedIds = addToSelection c9State.selectedIds "ZZZ" ∧
    (handleNetworkClickSt sampleCatAB plainDefaults (fun _ => none) c9State
        (some "ZZZ")).sidebarCourse = c9State.sidebarCourse ∧
    (handleNetworkClickSt sampleCatAB plainDefaults (fun _ => none) c9State
        (some "ZZZ")).sidebarVisible = c9State.sidebarVisible ∧
    (handleNetworkClickSt sampleCatAB plainDefaults (fun _ => none) c9State
        (some "ZZZ")).nodeAttrs =
      c9State.nodes.map (renderNodeAttrs plainDefaults (fun _ => none)
        c9State.categoryFilter (addToSelection c9State.selectedIds "ZZZ")
        (nodesToFullyHighlight c9State.edges
          (addToSelection c9State.selectedIds "ZZZ"))) :=
  c9_theorem sampleCatAB plainDefaults (fun _ => none) c9State "ZZZ"
    (by decide) (by rfl)

/-! ## C10: junction and textual node clicks select and highlight -/

/-- C10: clicking an ID that matches no catalog course — in particular any
synthetic junction or textual node ID — updates the cumulative selection by
the very same `Set.add` rule a course-node click uses, so the clicked
junction contributes itself and all of its direct neighbors to the highlight
set used by this and subsequent render passes; only the sidebar update is
skipped. -/
theorem c10_theorem (cat : List Course) (defaults : NodeDefaults)
    (groupsCfg : String → Option GroupCfg) (st : AppState) (jid : String)
    (hjunction : findCourse cat jid = none) :
    (handleNetworkClickSt cat defaults groupsCfg st (some jid)).selectedIds =
      addToSelection st.selectedIds jid ∧
    jid ∈ nodesToFullyHighlight st.edges
      (handleNetworkClickSt cat defaults groupsCfg st (some jid)).selectedIds ∧
    (∀ u ∈ getConnectedNodes st.edges jid,
      u ∈ nodesToFullyHighlight st.edges
        (handleNetworkClickSt cat defaults groupsCfg st (some jid)).selectedIds) ∧
    (handleNetworkClickSt cat defaults groupsCfg st (some jid)).nodeAttrs =
      st.nodes.map (renderNodeAttrs defaults groupsCfg st.categoryFilter
        (addToSelection st.selectedIds jid)
        (nodesToFullyHighlight st.edges (addToSelection st.selectedIds jid))) ∧
    (handleNetworkClickSt cat defaults groupsCfg st (some jid)).sidebarCourse =
      st.sidebarCourse ∧
    (handleNetworkClickSt cat defaults groupsCfg st (some jid)).sidebarVisible =
      st.sidebarVisible := by
  have hsel : (handleNetworkClickSt cat defaults groupsCfg st (some jid)).selectedIds =
      addToSelection st.selectedIds jid := by
    simp [handleNetworkClickSt, hjunction]
  have hmem := mem_addToSelection_self st.selectedIds jid
  have hhl := mem_nodesToFullyHighlight_of_selected st.edges
    (addToSelection st.selectedIds jid) jid hmem
  refine ⟨hsel, ?_, ?_, ?_, ?_, ?_⟩
  · rw [hsel]; exact hhl.1
  · rw [hsel]; exact hhl.2
  · simp [handleNetworkClickSt, hjunction]
  · simp [handleNetworkClickSt, hjunction]
  · simp [handleNetworkClickSt, hjunction]

/-- A state containing an AND junction wired between `BB` and `AA`. -/
def c10State : AppState :=
  { selectedIds := [], categoryFilter := "all",
    nodes := [{ id := "AA", label := "AA", group := "AA",
                title := "AA: Course AA", size := none },
              { id := "logic_AA_prereq_AND_1", label := "AND", group := "AndNode",
                title := "AND condition for AA", size := some 12 },
              { id := "BB", label := "BB", group := "BB",
                title := "BB: Course BB", size := none }],
    edges := [{ fromId := "logic_AA_prereq_AND_1", toId := "AA", dashes := false,
                baseColorType := "prereq",
                id := "logic_AA_prereq_AND_1_AA_prereq" },
              { fromId := "BB", toId := "logic_AA_prereq_AND_1", dashes := false,
                baseColorType := "prereq",
                id := "BB_logic_AA_prereq_AND_1_prereq" }],
    sidebarCourse := none, sidebarVisible := false,
    nodeAttrs := [], edgeColors := [] }

/-- Witness for `c10_theorem`: clicking the AND junction selects it and puts
it and both of its neighbors (`AA` and `BB`) into the highlight set. -/
theorem c10_witness :
    (handleNetworkClickSt sampleCatAB plainDefaults (fun _ => none) c10State
        (some "logic_AA_prereq_AND_1")).selectedIds =
      addToSelection c10State.selectedIds "logic_AA_prereq_AND_1" ∧
    "logic_AA_prereq_AND_1" ∈ nodesToFullyHighlight c10State.edges
      (handleNetworkClickSt sampleCatAB plainDefaults (fun _ => none) c10State
        (some "logic_AA_prereq_AND_1")).selectedIds ∧
    (∀ u ∈ getConnectedNodes c10State.edges "logic_AA_prereq_AND_1",
      u ∈ nodesToFullyHighlight c10State.edges
        (handleNetworkClickSt sampleCatAB plainDefaults (fun _ => none) c10State
          (some "logic_AA_prereq_AND_1")).selectedIds) ∧
    (handleNetworkClickSt sampleCatAB plainDefaults (fun _ => none) c10State
        (some "logic_AA_prereq_AND_1")).nodeAttrs =
      c10State.nodes.map (renderNodeAttrs plainDefaults (fun _ => none)
        c10State.categoryFilter
        (addToSelection c10State.selectedIds "logic_AA_prereq_AND_1")
        (nodesToFullyHighlight c10State.edges
          (addToSelection c10State.selectedIds "logic_AA_prereq_AND_1"))) ∧
    (handleNetworkClickSt sampleCatAB plainDefaults (fun _ => none) c10State
        (some "logic_AA_prereq_AND_1")).sidebarCourse = c10State.sidebarCourse ∧
    (handleNetworkClickSt sampleCatAB plainDefaults (fun _ => none) c10State
        (some "logic_AA_prereq_AND_1")).sidebarVisible = c10State.sidebarVisible :=
  c10_theorem sampleCatAB plainDefaults (fun _ => none) c10State
    "logic_AA_prereq_AND_1" (by rfl)

/-! ## Push-helper lemmas for the builder state -/

theorem pushNodeIfAbsent_nodes_sub (st : BuildSt) (n : GNode) :
    st.nodes ⊆ (pushNodeIfAbsent st n).nodes := by
  unfold pushNodeIfAbsent
  split
  · exact List.Subset.refl _
  · exact List.subset_append_left _ _

theorem pushNodeIfAbsent_edges (st : BuildSt) (n : GNode) :
    (pushNodeIfAbsent st n).edges = st.edges := by
  unfold pushNodeIfAbsent; split <;> rfl

theorem pushNodeIfAbsent_idc (st : BuildSt) (n : GNode) :
    (pushNodeIfAbsent st n).idc = st.idc := by
  unfold pushNodeIfAbsent; split <;> rfl

theorem pushEdgeIfAbsent_edges_sub (st : BuildSt) (e : GEdge) :
    st.edges ⊆ (pushEdgeIfAbsent st e).edges := by
  unfold pushEdgeIfAbsent
  split
  · exact List.Subset.refl _
  · exact List.subset_append_left _ _

theorem pushEdgeIfAbsent_nodes (st : BuildSt) (e : GEdge) :
    (pushEdgeIfAbsent st e).nodes = st.nodes := by
  unfold pushEdgeIfAbsent; split <;> rfl

theorem pushEdgeIfAbsent_idc (st : BuildSt) (e : GEdge) :
    (pushEdgeIfAbsent st e).idc = st.idc := by
  unfold pushEdgeIfAbsent; split <;> rfl

theorem pushNodeIfAbsent_of_fresh (st : BuildSt) (n : GNode)
    (h : ¬ st.nodes.any (fun m => m.id == n.id)) :
    (pushNodeIfAbsent st n).nodes = st.nodes ++ [n] := by
  unfold pushNodeIfAbsent
  rw [if_neg (by simpa using h)]

theorem pushEdgeIfAbsent_of_fresh (st : BuildSt) (e : GEdge)
    (h : ¬ st.edges.any (fun f => f.id == e.id)) :
    (pushEdgeIfAbsent st e).edges = st.edges ++ [e] := by
  unfold pushEdgeIfAbsent
  rw [if_neg (by simpa using h)]

/-- Both guarded pushes in sequence: the node array only grows. -/
theorem pushes_nodes_sub (st : BuildSt) (n : GNode) (e : GEdge) :
    st.nodes ⊆ (pushEdgeIfAbsent (pushNodeIfAbsent st n) e).nodes := by
  rw [pushEdgeIfAbsent_nodes]
  exact pushNodeIfAbsent_nodes_sub _ _

/-- Both guarded pushes in sequence: the edge array only grows. -/
theorem pushes_edges_sub (st : BuildSt) (n : GNode) (e : GEdge) :
    st.edges ⊆ (pushEdgeIfAbsent (pushNodeIfAbsent st n) e).edges := by
  have h := pushEdgeIfAbsent_edges_sub (pushNodeIfAbsent st n) e
  rwa [pushNodeIfAbsent_edges] at h

/-- The builder only appends to the node and edge arrays: the incoming
arrays are prefixes of the outgoing ones. -/
theorem addReq_arrays_sub (cat : List Course) :
    ∀ (r : Req) (tgt ty orig : String) (st : BuildSt),
      st.nodes ⊆ (addRequirementGraphElements cat r tgt ty orig st).nodes ∧
      st.edges ⊆ (addRequirementGraphElements cat r tgt ty orig st).edges := by
  refine addRequirementGraphElements.induct cat
    (fun rs tgt ty orig st =>
      st.nodes ⊆ (addRequirementGraphElements.addRequirementList cat rs tgt ty orig st).nodes ∧
      st.edges ⊆ (addRequirementGraphElements.addRequirementList cat rs tgt ty orig st).edges)
    (fun r tgt ty orig st =>
      st.nodes ⊆ (addRequirementGraphElements cat r tgt ty orig st).nodes ∧
      st.edges ⊆ (addRequirementGraphElements cat r tgt ty orig st).edges)
    ?_ ?_ ?_ ?_ ?_ ?_ ?_ ?_
  · intro courseCode targetNodeId ty orig st courseData hfind
    simp only [addRequirementGraphElements, hfind]
    exact ⟨pushes_nodes_sub st _ _, pushes_edges_sub st _ _⟩
  · intro courseCode targetNodeId ty orig st hfind
    simp only [addRequirementGraphElements, hfind]
    exact ⟨List.Subset.refl _, List.Subset.refl _⟩
  · intro operator conds targetNodeId ty orig st cnt oper logicNodeGroup logicNodeId st0
      st1 st2 ih
    show st.nodes ⊆
        (addRequirementGraphElements.addRequirementList cat conds logicNodeId ty orig st2).nodes ∧
      st.edges ⊆
        (addRequirementGraphElements.addRequirementList cat conds logicNodeId ty orig st2).edges
    exact ⟨(pushes_nodes_sub st0 _ _).trans ih.1, (pushes_edges_sub st0 _ _).trans ih.2⟩
  · intro text targetNodeId ty orig st
    simp only [addRequirementGraphElements]
    exact ⟨pushes_nodes_sub
        { st with idc := { st.idc with textual := st.idc.textual + 1 } } _ _,
      pushes_edges_sub
        { st with idc := { st.idc with textual := st.idc.textual + 1 } } _ _⟩
  · intro conds targetNodeId ty orig st cnt orNodeId st0 st1 st2 ih
    show st.nodes ⊆
        (addRequirementGraphElements.addRequirementList cat conds orNodeId ty orig st2).nodes ∧
      st.edges ⊆
        (addRequirementGraphElements.addRequirementList cat conds orNodeId ty orig st2).edges
    exact ⟨(pushes_nodes_sub st0 _ _).trans ih.1, (pushes_edges_sub st0 _ _).trans ih.2⟩
  · intro count conds targetNodeId ty orig st hcount cnt nOfListNodeId nodeLabel st0 st1 st2 ih
    show st.nodes ⊆
        (addRequirementGraphElements cat (.nOfList count conds) targetNodeId ty orig st).nodes ∧
      st.edges ⊆
        (addRequirementGraphElements cat (.nOfList count conds) targetNodeId ty orig st).edges
    simp only [addRequirementGraphElements, if_neg hcount]
    exact ⟨(pushes_nodes_sub st0 _ _).trans ih.1, (pushes_edges_sub st0 _ _).trans ih.2⟩
  · intro tgt ty orig st
    exact ⟨List.Subset.refl _, List.Subset.refl _⟩
  · intro r rs tgt ty orig st ihr ihrs
    show st.nodes ⊆ (addRequirementGraphElements.addRequirementList cat rs tgt ty orig
        (addRequirementGraphElements cat r tgt ty orig st)).nodes ∧
      st.edges ⊆ (addRequirementGraphElements.addRequirementList cat rs tgt ty orig
        (addRequirementGraphElements cat r tgt ty orig st)).edges
    exact ⟨ihr.1.trans ihrs.1, ihr.2.trans ihrs.2⟩

/-- List version of `addReq_arrays_sub`. -/
theorem addReqList_arrays_sub (cat : List Course) :
    ∀ (rs : List Req) (tgt ty orig : String) (st : BuildSt),
      st.nodes ⊆ (addRequirementGraphElements.addRequirementList cat rs tgt ty orig st).nodes ∧
      st.edges ⊆ (addRequirementGraphElements.addRequirementList cat rs tgt ty orig st).edges := by
  intro rs
  induction rs with
  | nil =>
      intro tgt ty orig st
      exact ⟨List.Subset.refl _, List.Subset.refl _⟩
  | cons r rest ih =>
      intro tgt ty orig st
      have h1 := addReq_arrays_sub cat r tgt ty orig st
      have h2 := ih tgt ty orig (addRequirementGraphElements cat r tgt ty orig st)
      simp only [addRequirementGraphElements.addRequirementList]
      exact ⟨h1.1.trans h2.1, h1.2.trans h2.2⟩

/-! ## C6: `N_OF_LIST` semantic normalization -/

/-- C6: when the builder meets an `N_OF_LIST` requirement with `count == 1`
(and the synthesized IDs are fresh, as the pass-wide counters arrange), it
allocates an OR junction — group `"OrNode"`, label `"OR"`, the ID drawn from
the `logic_` namespace — and not an N-of-list node: the `nOfList` ordinal is
untouched.  With `count ≥ 2` it allocates an `NOfListNode` junction whose
label carries the count for display (`"<count> of:"`).  In both cases an
edge runs from the junction to the target and the conditions are processed
recursively with the junction as the new target. -/
theorem c6_theorem (cat : List Course) (conds : List Req) (count : Nat)
    (tgt ty orig : String) (st : BuildSt) :
    (count = 1 →
      ∀ jid jnode jedge,
        jid = "logic_" ++ (orig ++ "_" ++ ty ++ "_OR_N_OF_1_" ++ Nat.repr (st.idc.logic + 1)) →
        jnode = ({ id := jid, label := "OR", group := "OrNode",
                   title := "OR condition (1 of list) for " ++ orig,
                   size := some 12 } : GNode) →
        jedge = ({ fromId := jid, toId := tgt, dashes := false, baseColorType := ty,
                   id := jid ++ "_" ++ tgt ++ "_" ++ ty } : GEdge) →
        ¬ st.nodes.any (fun m => m.id == jid) →
        ¬ st.edges.any (fun f => f.id == jedge.id) →
        jnode ∈ (addRequirementGraphElements cat (.nOfList count conds) tgt ty orig st).nodes ∧
        jedge ∈ (addRequirementGraphElements cat (.nOfList count conds) tgt ty orig st).edges ∧
        ∃ stMid : BuildSt,
          stMid.idc.nOfList = st.idc.nOfList ∧
          jnode ∈ stMid.nodes ∧
          addRequirementGraphElements cat (.nOfList count conds) tgt ty orig st =
            addRequirementGraphElements.addRequirementList cat conds jid ty orig stMid) ∧
    (2 ≤ count →
      ∀ njid nnode nedge,
        njid = "n_of_list_" ++ (orig ++ "_" ++ ty ++ "_" ++ Nat.repr count ++ "_" ++
          Nat.repr (st.idc.nOfList + 1)) →
        nnode = ({ id := njid, label := Nat.repr count ++ " of:", group := "NOfListNode",
                   title := (Nat.repr count ++ " of:") ++ " (for " ++ orig ++ ")",
                   size := none } : GNode) →
        nedge = ({ fromId := njid, toId := tgt, dashes := false, baseColorType := ty,
                   id := njid ++ "_" ++ tgt ++ "_" ++ ty } : GEdge) →
        ¬ st.nodes.any (fun m => m.id == njid) →
        ¬ st.edges.any (fun f => f.id == nedge.id) →
        nnode ∈ (addRequirementGraphElements cat (.nOfList count conds) tgt ty orig st).nodes ∧
        nedge ∈ (addRequirementGraphElements cat (.nOfList count conds) tgt ty orig st).edges ∧
        ∃ stMid : BuildSt,
          stMid.idc.logic = st.idc.logic ∧
          nnode ∈ stMid.nodes ∧
          addRequirementGraphElements cat (.nOfList count conds) tgt ty orig st =
            addRequirementGraphElements.addRequirementList cat conds njid ty orig stMid) := by
  constructor
  · rintro rfl jid jnode jedge hjid hjnode hjedge hfnode hfedge
    have heq : addRequirementGraphElements cat (.nOfList 1 conds) tgt ty orig st =
        addRequirementGraphElements.addRequirementList cat conds jid ty orig
          (pushEdgeIfAbsent
            (pushNodeIfAbsent
              { st with idc := { st.idc with logic := st.idc.logic + 1 } } jnode)
            jedge) := by
      subst hjedge; subst hjnode; subst hjid; rfl
    have hn1 : (pushNodeIfAbsent
        { st with idc := { st.idc with logic := st.idc.logic + 1 } } jnode).nodes
        = st.nodes ++ [jnode] := by
      refine pushNodeIfAbsent_of_fresh _ jnode ?_
      simp only [hjnode]
      exact hfnode
    have hmemn : jnode ∈ (pushEdgeIfAbsent
        (pushNodeIfAbsent
          { st with idc := { st.idc with logic := st.idc.logic + 1 } } jnode)
        jedge).nodes := by
      rw [pushEdgeIfAbsent_nodes, hn1]; simp
    have hfe : ¬ (pushNodeIfAbsent
        { st with idc := { st.idc with logic := st.idc.logic + 1 } } jnode).edges.any
          (fun f => f.id == jedge.id) := by
      rw [pushNodeIfAbsent_edges]
      exact hfedge
    have hmeme : jedge ∈ (pushEdgeIfAbsent
        (pushNodeIfAbsent
          { st with idc := { st.idc with logic := st.idc.logic + 1 } } jnode)
        jedge).edges := by
      rw [pushEdgeIfAbsent_of_fresh _ _ hfe]; simp
    have hpre := addReqList_arrays_sub cat conds jid ty orig
      (pushEdgeIfAbsent
        (pushNodeIfAbsent
          { st with idc := { st.idc with logic := st.idc.logic + 1 } } jnode)
        jedge)
    refine ⟨?_, ?_, _, ?_, hmemn, heq⟩
    · rw [heq]; exact hpre.1 hmemn
    · rw [heq]; exact hpre.2 hmeme
    · rw [pushEdgeIfAbsent_idc, pushNodeIfAbsent_idc]
  · intro hcount njid nnode nedge hjid hjnode hjedge hfnode hfedge
    have hne : ¬ count = 1 := by omega
    have heq : addRequirementGraphElements cat (.nOfList count conds) tgt ty orig st =
        addRequirementGraphElements.addRequirementList cat conds njid ty orig
          (pushEdgeIfAbsent
            (pushNodeIfAbsent
              { st with idc := { st.idc with nOfList := st.idc.nOfList + 1 } } nnode)
            nedge) := by
      subst hjedge; subst hjnode; subst hjid
      simp only [addRequirementGraphElements, if_neg hne]
    have hn1 : (pushNodeIfAbsent
        { st with idc := { st.idc with nOfList := st.idc.nOfList + 1 } } nnode).nodes
        = st.nodes ++ [nnode] := by
      refine pushNodeIfAbsent_of_fresh _ nnode ?_
      simp only [hjnode]
      exact hfnode
    have hmemn : nnode ∈ (pushEdgeIfAbsent
        (pushNodeIfAbsent
          { st with idc := { st.idc with nOfList := st.idc.nOfList + 1 } } nnode)
        nedge).nodes := by
      rw [pushEdgeIfAbsent_nodes, hn1]; simp
    have hfe : ¬ (pushNodeIfAbsent
        { st with idc := { st.idc with nOfList := st.idc.nOfList + 1 } } nnode).edges.any
          (fun f => f.id == nedge.id) := by
      rw [pushNodeIfAbsent_edges]
      exact hfedge
    have hmeme : nedge ∈ (pushEdgeIfAbsent
        (pushNodeIfAbsent
          { st with idc := { st.idc with nOfList := st.idc.nOfList + 1 } } nnode)
        nedge).edges := by
      rw [pushEdgeIfAbsent_of_fresh _ _ hfe]; simp
    have hpre := addReqList_arrays_sub cat conds njid ty orig
      (pushEdgeIfAbsent
        (pushNodeIfAbsent
          { st with idc := { st.idc with nOfList := st.idc.nOfList + 1 } } nnode)
        nedge)
    refine ⟨?_, ?_, _, ?_, hmemn, heq⟩
    · rw [heq]; exact hpre.1 hmemn
    · rw [heq]; exact hpre.2 hmeme
    · rw [pushEdgeIfAbsent_idc, pushNodeIfAbsent_idc]

/-- Witness for `c6_theorem`: a `count = 1` list yields the OR junction, a
`count = 2` list yields the hexagonal N-of-list junction labelled `2 of:`. -/
theorem c6_witness :
    (({ id := "logic_AA_prereq_OR_N_OF_1_1", label := "OR", group := "OrNode",
        title := "OR condition (1 of list) for AA", size := some 12 } : GNode) ∈
      (addRequirementGraphElements sampleCatAB (.nOfList 1 [.course "BB"]) "AA" "prereq" "AA"
        { nodes := [], edges := [],
          idc := { logic := 0, textual := 0, nOfList := 0 } }).nodes) ∧
    (({ id := "n_of_list_AA_prereq_2_1", label := "2 of:", group := "NOfListNode",
        title := "2 of: (for AA)", size := none } : GNode) ∈
      (addRequirementGraphElements sampleCatAB (.nOfList 2 [.course "BB"]) "AA" "prereq" "AA"
        { nodes := [], edges := [],
          idc := { logic := 0, textual := 0, nOfList := 0 } }).nodes) := by
  constructor
  · exact ((c6_theorem sampleCatAB [.course "BB"] 1 "AA" "prereq" "AA"
      { nodes := [], edges := [], idc := { logic := 0, textual := 0, nOfList := 0 } }).1
      rfl "logic_AA_prereq_OR_N_OF_1_1"
      { id := "logic_AA_prereq_OR_N_OF_1_1", label := "OR", group := "OrNode",
        title := "OR condition (1 of list) for AA", size := some 12 }
      { fromId := "logic_AA_prereq_OR_N_OF_1_1", toId := "AA", dashes := false,
        baseColorType := "prereq", id := "logic_AA_prereq_OR_N_OF_1_1_AA_prereq" }
      (by decide) (by decide) (by decide) (by decide) (by decide)).1
  · exact ((c6_theorem sampleCatAB [.course "BB"] 2 "AA" "prereq" "AA"
      { nodes := [], edges := [], idc := { logic := 0, textual := 0, nOfList := 0 } }).2
      (by decide) "n_of_list_AA_prereq_2_1"
      { id := "n_of_list_AA_prereq_2_1", label := "2 of:", group := "NOfListNode",
        title := "2 of: (for AA)", size := none }
      { fromId := "n_of_list_AA_prereq_2_1", toId := "AA", dashes := false,
        baseColorType := "prereq", id := "n_of_list_AA_prereq_2_1_AA_prereq" }
      (by decide) (by decide) (by decide) (by decide) (by decide)).1

/-! ## ClosureResolver lemmas -/

/-- The catalog codes not yet collected in `result`. -/
def undone (cat : List Course) (result : List String) : Nat :=
  ((catCodes cat).toFinset \ result.toFinset).card

/-- The codes `addDependencies` can examine in one course record. -/
def courseCoLo (c : Course) : List String :=
  coLoRefs.coLoRefsList c.prerequisites_parsed ++ coLoRefs.coLoRefsList c.corequisites_parsed

theorem undone_append_single (cat : List Course) (result : List String) (code : String)
    (hc : code ∈ catCodes cat) (hr : code ∉ result) :
    undone cat (result ++ [code]) + 1 = undone cat result := by
  unfold undone
  have h1 : (result ++ [code]).toFinset = insert code result.toFinset := by
    ext x
    simp [or_comm]
  rw [h1]
  have h2 : (catCodes cat).toFinset \ insert code result.toFinset =
      ((catCodes cat).toFinset \ result.toFinset).erase code := by
    ext x
    simp only [Finset.mem_sdiff, Finset.mem_insert, Finset.mem_erase, List.mem_toFinset]
    tauto
  rw [h2]
  have hmem : code ∈ (catCodes cat).toFinset \ result.toFinset := by
    simp [Finset.mem_sdiff, List.mem_toFinset, hc, hr]
  rw [Finset.card_erase_of_mem hmem]
  have hpos : 0 < ((catCodes cat).toFinset \ result.toFinset).card :=
    Finset.card_pos.mpr ⟨code, hmem⟩
  omega

/-- Everything `addDependencies` does to the traversal state: it appends the
same batch of fresh catalog codes to the result set and the queue; every
appended code is reachable through `COURSE`/`LOGICAL_OPERATOR` nodes only,
and the count of uncollected catalog codes drops by exactly the batch
size. -/
theorem addDeps_spec (cat : List Course) :
    ∀ (r : Req) (st : ClosSt), ∃ newR : List String,
      (addDeps cat r st).result = st.result ++ newR ∧
      (addDeps cat r st).pending = st.pending ++ newR ∧
      (∀ x ∈ newR, x ∈ catCodes cat ∧ x ∉ st.result ∧ x ∈ coLoRefs r) ∧
      undone cat (addDeps cat r st).result + newR.length = undone cat st.result := by
  refine addDeps.induct cat
    (fun rs st => ∃ newR : List String,
      (addDeps.addDepsList cat rs st).result = st.result ++ newR ∧
      (addDeps.addDepsList cat rs st).pending = st.pending ++ newR ∧
      (∀ x ∈ newR, x ∈ catCodes cat ∧ x ∉ st.result ∧ x ∈ coLoRefs.coLoRefsList rs) ∧
      undone cat (addDeps.addDepsList cat rs st).result + newR.length =
        undone cat st.result)
    (fun r st => ∃ newR : List String,
      (addDeps cat r st).result = st.result ++ newR ∧
      (addDeps cat r st).pending = st.pending ++ newR ∧
      (∀ x ∈ newR, x ∈ catCodes cat ∧ x ∉ st.result ∧ x ∈ coLoRefs r) ∧
      undone cat (addDeps cat r st).result + newR.length = undone cat st.result)
    ?_ ?_ ?_ ?_ ?_ ?_ ?_
  · intro code st hguard
    obtain ⟨hsome, hnotmem⟩ := hguard
    have hcat : code ∈ catCodes cat := (findCourse_isSome_iff cat code).mp hsome
    have hres : (addDeps cat (.course code) st) =
        { result := st.result ++ [code], pending := st.pending ++ [code] } := by
      simp [addDeps, hsome, hnotmem]
    refine ⟨[code], ?_, ?_, ?_, ?_⟩
    · rw [hres]
    · rw [hres]
    · intro x hx
      rcases List.mem_singleton.mp hx with rfl
      exact ⟨hcat, hnotmem, by simp [coLoRefs]⟩
    · rw [hres]
      simpa using undone_append_single cat st.result code hcat hnotmem
  · intro code st hguard
    have hres : addDeps cat (.course code) st = st := by
      simp only [addDeps, if_neg hguard]
    refine ⟨[], ?_, ?_, ?_, ?_⟩ <;> simp [hres]
  · intro operator conds st ih
    rcases ih with ⟨newR, h1, h2, h3, h4⟩
    exact ⟨newR, h1, h2, fun x hx => by
      have h := h3 x hx
      exact ⟨h.1, h.2.1, by simpa [coLoRefs] using h.2.2⟩, h4⟩
  · intro text st
    refine ⟨[], ?_, ?_, ?_, ?_⟩ <;> simp [addDeps]
  · intro count conditions st
    refine ⟨[], ?_, ?_, ?_, ?_⟩ <;> simp [addDeps]
  · intro st
    refine ⟨[], ?_, ?_, ?_, ?_⟩ <;> simp [addDeps.addDepsList]
  · intro r rs st ihr ihrs
    rcases ihr with ⟨n1, hr1, hr2, hr3, hr4⟩
    rcases ihrs with ⟨n2, hs1, hs2, hs3, hs4⟩
    have heq : addDeps.addDepsList cat (r :: rs) st =
        addDeps.addDepsList cat rs (addDeps cat r st) := rfl
    refine ⟨n1 ++ n2, ?_, ?_, ?_, ?_⟩
    · rw [heq, hs1, hr1, List.append_assoc]
    · rw [heq, hs2, hr2, List.append_assoc]
    · intro x hx
      rcases List.mem_append.mp hx with hx1 | hx2
      · have h := hr3 x hx1
        exact ⟨h.1, h.2.1, by
          simp only [coLoRefs.coLoRefsList, List.mem_append]
          exact Or.inl h.2.2⟩
      · have h := hs3 x hx2
        refine ⟨h.1, ?_, by
          simp only [coLoRefs.coLoRefsList, List.mem_append]
          exact Or.inr h.2.2⟩
        intro hmem
        exact h.2.1 (by rw [hr1]; exact List.mem_append.mpr (Or.inl hmem))
    · rw [heq, List.length_append]
      rw [heq] at *
      omega

/-- `addDeps_spec` for a whole requirement list. -/
theorem addDepsList_spec (cat : List Course) :
    ∀ (rs : List Req) (st : ClosSt), ∃ newR : List String,
      (addDeps.addDepsList cat rs st).result = st.result ++ newR ∧
      (addDeps.addDepsList cat rs st).pending = st.pending ++ newR ∧
      (∀ x ∈ newR, x ∈ catCodes cat ∧ x ∉ st.result ∧ x ∈ coLoRefs.coLoRefsList rs) ∧
      undone cat (addDeps.addDepsList cat rs st).result + newR.length =
        undone cat st.result := by
  intro rs
  induction rs with
  | nil =>
      intro st
      exact ⟨[], by simp [addDeps.addDepsList], by simp [addDeps.addDepsList],
        by simp, by simp [addDeps.addDepsList]⟩
  | cons r rest ih =>
      intro st
      obtain ⟨n1, hr1, hr2, hr3, hr4⟩ := addDeps_spec cat r st
      obtain ⟨n2, hs1, hs2, hs3, hs4⟩ := ih (addDeps cat r st)
      have heq : addDeps.addDepsList cat (r :: rest) st =
          addDeps.addDepsList cat rest (addDeps cat r st) := rfl
      refine ⟨n1 ++ n2, ?_, ?_, ?_, ?_⟩
      · rw [heq, hs1, hr1, List.append_assoc]
      · rw [heq, hs2, hr2, List.append_assoc]
      · intro x hx
        rcases List.mem_append.mp hx with hx1 | hx2
        · have h := hr3 x hx1
          exact ⟨h.1, h.2.1, by
            simp only [coLoRefs.coLoRefsList, List.mem_append]
            exact Or.inl h.2.2⟩
        · have h := hs3 x hx2
          refine ⟨h.1, ?_, by
            simp only [coLoRefs.coLoRefsList, List.mem_append]
            exact Or.inr h.2.2⟩
          intro hmem
          exact h.2.1 (by rw [hr1]; exact List.mem_append.mpr (Or.inl hmem))
      · rw [heq, List.length_append]
        rw [heq] at *
        omega

/-- The BFS only appends to the result set. -/
theorem closureGo_result_sub (cat : List Course) :
    ∀ (fuel : Nat) (queue result : List String),
      result ⊆ closureGo cat fuel queue result := by
  refine closureGo.induct cat
    (fun fuel queue result => result ⊆ closureGo cat fuel queue result) ?_ ?_ ?_ ?_
  · intro queue result
    exact List.Subset.refl _
  · intro n result
    exact List.Subset.refl _
  · intro fuel currentCode rest result hfind ih
    have heq : closureGo cat (fuel + 1) (currentCode :: rest) result =
        closureGo cat fuel rest result := by
      simp only [closureGo, hfind]
    rw [heq]; exact ih
  · intro fuel currentCode rest result course hfind st1 st2 ih
    have heq : closureGo cat (fuel + 1) (currentCode :: rest) result =
        closureGo cat fuel (rest ++ st2.pending) st2.result := by
      simp only [closureGo, hfind]
    rw [heq]
    obtain ⟨n1, ha1, -, -, -⟩ := addDepsList_spec cat course.prerequisites_parsed
      { result := result, pending := [] }
    obtain ⟨n2, hb1, -, -, -⟩ := addDepsList_spec cat course.corequisites_parsed st1
    have hpre : result ⊆ st2.result := by
      rw [show st2.result = st1.result ++ n2 from hb1, show st1.result = result ++ n1 from ha1,
        List.append_assoc]
      exact List.subset_append_left _ _
    exact hpre.trans ih

/-- Every invariant that holds on the result set and is implied (for catalog
codes) by membership in some catalog course's `COURSE`/`LOGICAL_OPERATOR`
reference set is preserved by the BFS. -/
theorem closureGo_invariant (cat : List Course) (Q : String → Prop)
    (hQ : ∀ c ∈ cat, ∀ x, x ∈ courseCoLo c → x ∈ catCodes cat → Q x) :
    ∀ (fuel : Nat) (queue result : List String),
      (∀ x ∈ result, Q x) → ∀ x ∈ closureGo cat fuel queue result, Q x := by
  refine closureGo.induct cat
    (fun fuel queue result =>
      (∀ x ∈ result, Q x) → ∀ x ∈ closureGo cat fuel queue result, Q x) ?_ ?_ ?_ ?_
  · intro queue result h
    exact h
  · intro n result h
    exact h
  · intro fuel currentCode rest result hfind ih h
    have heq : closureGo cat (fuel + 1) (currentCode :: rest) result =
        closureGo cat fuel rest result := by
      simp only [closureGo, hfind]
    rw [heq]; exact ih h
  · intro fuel currentCode rest result course hfind st1 st2 ih h
    have heq : closureGo cat (fuel + 1) (currentCode :: rest) result =
        closureGo cat fuel (rest ++ st2.pending) st2.result := by
      simp only [closureGo, hfind]
    rw [heq]
    refine ih ?_
    obtain ⟨n1, ha1, -, ha3, -⟩ := addDepsList_spec cat course.prerequisites_parsed
      { result := result, pending := [] }
    obtain ⟨n2, hb1, -, hb3, -⟩ := addDepsList_spec cat course.corequisites_parsed st1
    have hcourse : course ∈ cat := findCourse_mem hfind
    intro x hx
    rw [show st2.result = st1.result ++ n2 from hb1] at hx
    rcases List.mem_append.mp hx with hx1 | hx2
    · rw [show st1.result = result ++ n1 from ha1] at hx1
      rcases List.mem_append.mp hx1 with hx0 | hxn
      · exact h x hx0
      · have hp := ha3 x hxn
        exact hQ course hcourse x
          (List.mem_append.mpr (Or.inl hp.2.2)) hp.1
    · have hp := hb3 x hx2
      exact hQ course hcourse x
        (List.mem_append.mpr (Or.inr hp.2.2)) hp.1

/-- The result set only ever contains catalog codes. -/
theorem closureGo_subset_cat (cat : List Course) (fuel : Nat)
    (queue result : List String) (h : ∀ x ∈ result, x ∈ catCodes cat) :
    ∀ x ∈ closureGo cat fuel queue result, x ∈ catCodes cat :=
  closureGo_invariant cat (· ∈ catCodes cat) (fun _ _ _ _ hx => hx) fuel queue result h

/-- One spare unit of fuel never changes the BFS result once the fuel
dominates the remaining work (queue length plus uncollected catalog codes). -/
theorem closureGo_step_stable (cat : List Course) :
    ∀ (fuel : Nat) (queue result : List String),
      queue.length + undone cat result ≤ fuel →
      closureGo cat fuel queue result = closureGo cat (fuel + 1) queue result := by
  refine closureGo.induct cat
    (fun fuel queue result =>
      queue.length + undone cat result ≤ fuel →
      closureGo cat fuel queue result = closureGo cat (fuel + 1) queue result) ?_ ?_ ?_ ?_
  · intro queue result h
    cases queue with
    | nil => rfl
    | cons c rest => simp at h
  · intro n result _
    rfl
  · intro fuel currentCode rest result hfind ih h
    have heqL : closureGo cat (fuel + 1) (currentCode :: rest) result =
        closureGo cat fuel rest result := by
      simp only [closureGo, hfind]
    have heqR : closureGo cat (fuel + 1 + 1) (currentCode :: rest) result =
        closureGo cat (fuel + 1) rest result := by
      simp only [closureGo, hfind]
    rw [heqL, heqR]
    refine ih ?_
    simp only [List.length_cons] at h
    omega
  · intro fuel currentCode rest result course hfind st1 st2 ih h
    have heqL : closureGo cat (fuel + 1) (currentCode :: rest) result =
        closureGo cat fuel (rest ++ st2.pending) st2.result := by
      simp only [closureGo, hfind]
    have heqR : closureGo cat (fuel + 1 + 1) (currentCode :: rest) result =
        closureGo cat (fuel + 1) (rest ++ st2.pending) st2.result := by
      simp only [closureGo, hfind]
    rw [heqL, heqR]
    refine ih ?_
    obtain ⟨n1, ha1, ha2, -, ha4⟩ := addDepsList_spec cat course.prerequisites_parsed
      { result := result, pending := [] }
    obtain ⟨n2, hb1, hb2, -, hb4⟩ := addDepsList_spec cat course.corequisites_parsed st1
    have hplen : st2.pending.length = n1.length + n2.length := by
      rw [show st2.pending = st1.pending ++ n2 from hb2,
        show st1.pending = ([] : List String) ++ n1 from ha2]
      simp
    have hu1 : undone cat st1.result + n1.length = undone cat result := ha4
    have hu2 : undone cat st2.result + n2.length = undone cat st1.result := hb4
    simp only [List.length_append, List.length_cons] at h ⊢
    omega

/-- Any extra fuel beyond the dominating bound is irrelevant. -/
theorem closureGo_extra_fuel (cat : List Course) (fuel : Nat)
    (queue result : List String)
    (h : queue.length + undone cat result ≤ fuel) :
    ∀ k, closureGo cat (fuel + k) queue result = closureGo cat fuel queue result := by
  intro k
  induction k with
  | zero => rfl
  | succ k ih =>
      have hstep := closureGo_step_stable cat (fuel + k) queue result
        (le_trans h (by omega))
      calc closureGo cat (fuel + (k + 1)) queue result
          = closureGo cat ((fuel + k) + 1) queue result := by ring_nf
        _ = closureGo cat (fuel + k) queue result := (hstep).symm
        _ = closureGo cat fuel queue result := ih

/-- The fuel chosen by `computeRelevantSet` lets the BFS drain its queue
completely: granting any additional fuel does not change the result, so the
fuel-indexed model computes exactly what the unbounded `while` loop of the
source computes. -/
theorem closureGo_fuel_sufficient (cat : List Course) (seeds : List String) :
    ∀ k, closureGo cat ((initialQueue cat seeds).length + cat.length + k)
        (initialQueue cat seeds) (dedupKeepFirst (initialQueue cat seeds)) =
      computeRelevantSet cat seeds := by
  intro k
  have hbound : (initialQueue cat seeds).length +
      undone cat (dedupKeepFirst (initialQueue cat seeds)) ≤
      (initialQueue cat seeds).length + cat.length := by
    have h1 : undone cat (dedupKeepFirst (initialQueue cat seeds)) ≤
        (catCodes cat).toFinset.card :=
      Finset.card_le_card (Finset.sdiff_subset)
    have h2 : (catCodes cat).toFinset.card ≤ (catCodes cat).length :=
      List.toFinset_card_le _
    have h3 : (catCodes cat).length = cat.length := List.length_map _ _
    omega
  exact closureGo_extra_fuel cat _ _ _ hbound k

/-! ## C8: seeds that resolve are kept, unknown seeds are dropped -/

/-- C8: the relevant set contains every seed that resolves in the catalog;
a seed code absent from the catalog never enters the initial frontier and
never appears in the result (and the resolver is a total function — no
error is possible). -/
theorem c8_theorem (cat : List Course) (seeds : List String) :
    (∀ s ∈ seeds, s ∈ catCodes cat → s ∈ computeRelevantSet cat seeds) ∧
    (∀ x, x ∉ catCodes cat →
      x ∉ computeRelevantSet cat seeds ∧ x ∉ initialQueue cat seeds) := by
  constructor
  · intro s hs hcat
    have hq : s ∈ initialQueue cat seeds := by
      simp only [initialQueue, List.mem_filter]
      exact ⟨hs, by simpa using (findCourse_isSome_iff cat s).mpr hcat⟩
    have hd : s ∈ dedupKeepFirst (initialQueue cat seeds) :=
      (mem_dedupKeepFirst _ _).mpr hq
    exact closureGo_result_sub cat _ _ _ hd
  · intro x hx
    constructor
    · intro hmem
      refine hx (closureGo_subset_cat cat _ _ _ (fun y hy => ?_) x hmem)
      have hy' := (mem_dedupKeepFirst y _).mp hy
      simp only [initialQueue, List.mem_filter] at hy'
      exact (findCourse_isSome_iff cat y).mp (by simpa using hy'.2)
    · intro hmem
      simp only [initialQueue, List.mem_filter] at hmem
      exact hx ((findCourse_isSome_iff cat x).mp (by simpa using hmem.2))

/-- Witness for `c8_theorem`: seed `AA` resolves and is kept; seed
`FAKE-999` is absent from the catalog, enters neither frontier nor result. -/
theorem c8_witness :
    "AA" ∈ computeRelevantSet sampleCatAB ["AA", "FAKE-999"] ∧
    "FAKE-999" ∉ computeRelevantSet sampleCatAB ["AA", "FAKE-999"] ∧
    "FAKE-999" ∉ initialQueue sampleCatAB ["AA", "FAKE-999"] :=
  ⟨(c8_theorem sampleCatAB ["AA", "FAKE-999"]).1 "AA" (by decide) (by decide),
   ((c8_theorem sampleCatAB ["AA", "FAKE-999"]).2 "FAKE-999" (by decide)).1,
   ((c8_theorem sampleCatAB ["AA", "FAKE-999"]).2 "FAKE-999" (by decide)).2⟩

/-! ## C5: `Textual` and `NOfList` nodes are not traversed by the resolver -/

/-- C5: a course that is not a seed and is not reachable through
`CourseRef`/`LogicalOperator` nodes in any catalog course's requirement
trees — in particular one referenced only inside `NOfList` conditions or
free text — is absent from the relevant set even when it exists in the
catalog. -/
theorem c5_theorem (cat : List Course) (seeds : List String) (x : String)
    (_hxcat : x ∈ catCodes cat) (hxseed : x ∉ seeds)
    (hxref : ∀ c ∈ cat, x ∉ courseCoLo c) :
    x ∉ computeRelevantSet cat seeds := by
  intro hmem
  have hres := closureGo_invariant cat
    (fun y => y ∈ dedupKeepFirst (initialQueue cat seeds) ∨ ∃ c ∈ cat, y ∈ courseCoLo c)
    (fun c hc y hy _ => Or.inr ⟨c, hc, hy⟩) _ _ _
    (fun y hy => Or.inl hy) x hmem
  rcases hres with h | ⟨c, hc, hy⟩
  · have h' := (mem_dedupKeepFirst x _).mp h
    simp only [initialQueue, List.mem_filter] at h'
    exact hxseed h'.1
  · exact hxref c hc hy

/-- A catalog whose course `XX` references `YY` only inside a 2-of-list. -/
def sampleCatNOf : List Course :=
  [{ code := "XX", title := "Course XX",
     prerequisites_parsed := [.nOfList 2 [.course "YY"]], corequisites_parsed := [] },
   { code := "YY", title := "Course YY",
     prerequisites_parsed := [], corequisites_parsed := [] }]

/-- Witness for `c5_theorem`: `YY` exists in the catalog but is referenced
only inside an `NOfList`, so the closure of seed `XX` omits it. -/
theorem c5_witness :
    "YY" ∈ catCodes sampleCatNOf ∧
    "YY" ∉ computeRelevantSet sampleCatNOf ["XX"] :=
  ⟨by decide, c5_theorem sampleCatNOf ["XX"] "YY" (by decide) (by decide) (by decide)⟩

/-! ## C3 lemmas: the assembled edge array never holds two equal IDs -/

theorem pushEdgeIfAbsent_nodup (st : BuildSt) (e : GEdge)
    (h : (st.edges.map (·.id)).Nodup) :
    ((pushEdgeIfAbsent st e).edges.map (·.id)).Nodup := by
  unfold pushEdgeIfAbsent
  split
  · exact h
  · rename_i hguard
    have hnot : e.id ∉ st.edges.map (·.id) := by
      simp only [List.any_eq_true, beq_iff_eq] at hguard
      simp only [List.mem_map]
      rintro ⟨f, hf, hfe⟩
      exact hguard ⟨f, hf, hfe⟩
    rw [List.map_append]
    refine List.Nodup.append h (List.nodup_singleton _) ?_
    intro a ha hb
    rcases List.mem_singleton.mp hb with rfl
    exact hnot ha

theorem pushes_edges_nodup (st : BuildSt) (n : GNode) (e : GEdge)
    (h : (st.edges.map (·.id)).Nodup) :
    ((pushEdgeIfAbsent (pushNodeIfAbsent st n) e).edges.map (·.id)).Nodup := by
  refine pushEdgeIfAbsent_nodup _ e ?_
  rwa [pushNodeIfAbsent_edges]

/-- The recursive emitter preserves uniqueness of edge IDs: every edge push
is guarded by an ID-absence check. -/
theorem addReq_edges_nodup (cat : List Course) :
    ∀ (r : Req) (tgt ty orig : String) (st : BuildSt),
      (st.edges.map (·.id)).Nodup →
      ((addRequirementGraphElements cat r tgt ty orig st).edges.map (·.id)).Nodup := by
  refine addRequirementGraphElements.induct cat
    (fun rs tgt ty orig st =>
      (st.edges.map (·.id)).Nodup →
      ((addRequirementGraphElements.addRequirementList cat rs tgt ty orig st).edges.map
        (·.id)).Nodup)
    (fun r tgt ty orig st =>
      (st.edges.map (·.id)).Nodup →
      ((addRequirementGraphElements cat r tgt ty orig st).edges.map (·.id)).Nodup)
    ?_ ?_ ?_ ?_ ?_ ?_ ?_ ?_
  · intro courseCode targetNodeId ty orig st courseData hfind h
    simp only [addRequirementGraphElements, hfind]
    exact pushes_edges_nodup st _ _ h
  · intro courseCode targetNodeId ty orig st hfind h
    simpa only [addRequirementGraphElements, hfind] using h
  · intro operator conds targetNodeId ty orig st cnt oper logicNodeGroup logicNodeId st0
      st1 st2 ih h
    show ((addRequirementGraphElements.addRequirementList cat conds logicNodeId ty orig
      st2).edges.map (·.id)).Nodup
    exact ih (pushes_edges_nodup st0 _ _ h)
  · intro text targetNodeId ty orig st h
    simp only [addRequirementGraphElements]
    exact pushes_edges_nodup
      { st with idc := { st.idc with textual := st.idc.textual + 1 } } _ _ h
  · intro conds targetNodeId ty orig st cnt orNodeId st0 st1 st2 ih h
    show ((addRequirementGraphElements.addRequirementList cat conds orNodeId ty orig
      st2).edges.map (·.id)).Nodup
    exact ih (pushes_edges_nodup st0 _ _ h)
  · intro count conds targetNodeId ty orig st hcount cnt nOfListNodeId nodeLabel st0 st1
      st2 ih h
    show ((addRequirementGraphElements cat (.nOfList count conds) targetNodeId ty orig
      st).edges.map (·.id)).Nodup
    simp only [addRequirementGraphElements, if_neg hcount]
    exact ih (pushes_edges_nodup st0 _ _ h)
  · intro tgt ty orig st h
    exact h
  · intro r rs tgt ty orig st ihr ihrs h
    show ((addRequirementGraphElements.addRequirementList cat rs tgt ty orig
      (addRequirementGraphElements cat r tgt ty orig st)).edges.map (·.id)).Nodup
    exact ihrs (ihr h)

theorem addReqList_edges_nodup (cat : List Course) :
    ∀ (rs : List Req) (tgt ty orig : String) (st : BuildSt),
      (st.edges.map (·.id)).Nodup →
      ((addRequirementGraphElements.addRequirementList cat rs tgt ty orig st).edges.map
        (·.id)).Nodup := by
  intro rs
  induction rs with
  | nil => intro tgt ty orig st h; exact h
  | cons r rest ih =>
      intro tgt ty orig st h
      show ((addRequirementGraphElements.addRequirementList cat rest tgt ty orig
        (addRequirementGraphElements cat r tgt ty orig st)).edges.map (·.id)).Nodup
      exact ih tgt ty orig _ (addReq_edges_nodup cat r tgt ty orig st h)

theorem processCourseCode_edges_nodup (cat : List Course) (st : BuildSt) (code : String)
    (h : (st.edges.map (·.id)).Nodup) :
    ((processCourseCode cat st code).edges.map (·.id)).Nodup := by
  unfold processCourseCode
  cases hfind : findCourse cat code with
  | none => exact h
  | some course =>
      refine addReqList_edges_nodup cat _ _ _ _ _ ?_
      refine addReqList_edges_nodup cat _ _ _ _ _ ?_
      exact h

theorem foldl_processCourseCode_edges_nodup (cat : List Course) :
    ∀ (codes : List String) (st : BuildSt),
      (st.edges.map (·.id)).Nodup →
      ((codes.foldl (processCourseCode cat) st).edges.map (·.id)).Nodup := by
  intro codes
  induction codes with
  | nil => intro st h; exact h
  | cons c rest ih =>
      intro st h
      simp only [List.foldl_cons]
      exact ih _ (processCourseCode_edges_nodup cat st c h)

theorem generateGraphElements_edges_nodup (cat : List Course) (codes : List String) :
    ((generateGraphElements cat codes).edges.map (·.id)).Nodup := by
  unfold generateGraphElements
  exact foldl_processCourseCode_edges_nodup cat _ _ (by simp)

/-! ## C3 lemmas: the Map-based node deduplication -/

theorem dedupNodesGo_nodup :
    ∀ (l : List GNode) (seen : List String),
      ((dedupNodesGo seen l).map (·.id)).Nodup ∧
      (∀ i ∈ (dedupNodesGo seen l).map (·.id), i ∉ seen) := by
  intro l
  induction l with
  | nil => intro seen; simp [dedupNodesGo]
  | cons n rest ih =>
      intro seen
      by_cases hc : seen.contains n.id
      · have hstep : dedupNodesGo seen (n :: rest) = dedupNodesGo seen rest := by
          simp only [dedupNodesGo, if_pos hc]
        rw [hstep]
        exact ih seen
      · have hnotin : n.id ∉ seen := by simpa using hc
        have hstep : dedupNodesGo seen (n :: rest) =
            n :: dedupNodesGo (seen ++ [n.id]) rest := by
          simp only [dedupNodesGo, if_neg hc]
        rw [hstep]
        obtain ⟨ihn, ihs⟩ := ih (seen ++ [n.id])
        constructor
        · simp only [List.map_cons, List.nodup_cons]
          refine ⟨fun hmem => ?_, ihn⟩
          exact ihs n.id hmem (by simp)
        · intro i hi
          simp only [List.map_cons, List.mem_cons] at hi
          rcases hi with rfl | hi
          · exact hnotin
          · intro hseen
            exact ihs i hi (List.mem_append.mpr (Or.inl hseen))

theorem dedupNodesGo_find? :
    ∀ (l : List GNode) (seen : List String) (i : String), i ∉ seen →
      (dedupNodesGo seen l).find? (fun n => n.id == i) =
        l.find? (fun n => n.id == i) := by
  intro l
  induction l with
  | nil => intro seen i _; rfl
  | cons n rest ih =>
      intro seen i hi
      by_cases hc : seen.contains n.id
      · have hstep : dedupNodesGo seen (n :: rest) = dedupNodesGo seen rest := by
          simp only [dedupNodesGo, if_pos hc]
        have hne : (n.id == i) = false := by
          have hm : n.id ∈ seen := by simpa using hc
          simp only [beq_eq_false_iff_ne, ne_eq]
          rintro rfl
          exact hi hm
        rw [hstep, List.find?_cons, hne]
        exact ih seen i hi
      · have hstep : dedupNodesGo seen (n :: rest) =
            n :: dedupNodesGo (seen ++ [n.id]) rest := by
          simp only [dedupNodesGo, if_neg hc]
        rw [hstep]
        by_cases heq : n.id = i
        · have htrue : (n.id == i) = true := by simpa using heq
          rw [List.find?_cons, htrue, List.find?_cons, htrue]
        · have hne : (n.id == i) = false := by simpa using heq
          rw [List.find?_cons, hne, List.find?_cons, hne]
          refine ih (seen ++ [n.id]) i ?_
          simp only [List.mem_append, List.mem_singleton]
          rintro (h | h)
          · exact hi h
          · exact heq h.symm

/-! ## C3: no duplicate IDs reach the render layer; dedup is first-wins -/

/-- C3: the node and edge collections handed to the vis.js data sets carry
pairwise-distinct IDs; node deduplication keeps, for every ID, exactly the
first node the assembly produced with that ID (so its attributes win), and
the edge array is passed through unchanged because the assembly's guarded
pushes already discarded later duplicates at production time. -/
theorem c3_theorem (cat : List Course) (codes : List String) :
    ((displayGraphForCourses cat codes).nodes.map (·.id)).Nodup ∧
    ((displayGraphForCourses cat codes).edges.map (·.id)).Nodup ∧
    (∀ i, (displayGraphForCourses cat codes).nodes.find? (fun n => n.id == i) =
      (generateGraphElements cat codes).nodes.find? (fun n => n.id == i)) ∧
    ((displayGraphForCourses cat codes).edges = [] ∨
      (displayGraphForCourses cat codes).edges = (generateGraphElements cat codes).edges) := by
  unfold displayGraphForCourses
  split
  · rename_i hempty
    have hnil : codes = [] := List.isEmpty_iff.mp hempty
    subst hnil
    refine ⟨by simp, by simp, ?_, Or.inl rfl⟩
    intro i
    have : generateGraphElements cat [] =
        { nodes := [], edges := [] } := rfl
    rw [this]
  · refine ⟨(dedupNodesGo_nodup _ []).1, generateGraphElements_edges_nodup cat codes,
      ?_, Or.inr rfl⟩
    intro i
    exact dedupNodesGo_find? _ [] i (by simp)

/-! ## C4 lemmas: which IDs the builder can create -/

theorem mem_ids_pushNodeIfAbsent (st : BuildSt) (n : GNode) (i : String) :
    i ∈ (pushNodeIfAbsent st n).nodes.map (·.id) ↔
      i ∈ st.nodes.map (·.id) ∨ i = n.id := by
  unfold pushNodeIfAbsent
  split
  · rename_i hguard
    simp only [List.any_eq_true, beq_iff_eq] at hguard
    obtain ⟨m, hm, hmn⟩ := hguard
    constructor
    · exact Or.inl
    · rintro (h | rfl)
      · exact h
      · exact List.mem_map.mpr ⟨m, hm, hmn⟩
  · simp [List.mem_append, eq_comm]

/-- The references of both requirement trees of one course record. -/
def courseRefs (c : Course) : List String :=
  courseRefsAll.courseRefsAllList c.prerequisites_parsed ++
    courseRefsAll.courseRefsAllList c.corequisites_parsed

/-- A course-code node ID can reach the output via the display code `x`:
`x` resolves to a course record whose own code or transitively referenced
course codes include it. -/
def viaCourse (cat : List Course) (i x : String) : Prop :=
  ∃ c, findCourse cat x = some c ∧ (i = c.code ∨ i ∈ courseRefs c)

/-- Characterization of the catalog-code node IDs the recursive emitter
creates: a catalog code is present afterwards exactly when it was present
before or is referenced (at any depth, through junction nodes) in the
requirement.  Junction IDs live in the reserved `logic_` / `textual_` /
`n_of_list_` namespaces and can never equal a catalog code. -/
theorem addReq_catNode_mem (cat : List Course)
    (hpfx : ∀ c ∈ cat, ∀ s : String,
      c.code ≠ "logic_" ++ s ∧ c.code ≠ "textual_" ++ s ∧ c.code ≠ "n_of_list_" ++ s) :
    ∀ (r : Req) (tgt ty orig : String) (st : BuildSt),
      ∀ i, i ∈ catCodes cat →
      (i ∈ (addRequirementGraphElements cat r tgt ty orig st).nodes.map (·.id) ↔
        i ∈ st.nodes.map (·.id) ∨ i ∈ courseRefsAll r) := by
  refine addRequirementGraphElements.induct cat
    (fun rs tgt ty orig st => ∀ i, i ∈ catCodes cat →
      (i ∈ (addRequirementGraphElements.addRequirementList cat rs tgt ty orig st).nodes.map
          (·.id) ↔
        i ∈ st.nodes.map (·.id) ∨ i ∈ courseRefsAll.courseRefsAllList rs))
    (fun r tgt ty orig st => ∀ i, i ∈ catCodes cat →
      (i ∈ (addRequirementGraphElements cat r tgt ty orig st).nodes.map (·.id) ↔
        i ∈ st.nodes.map (·.id) ∨ i ∈ courseRefsAll r))
    ?_ ?_ ?_ ?_ ?_ ?_ ?_ ?_
  · intro courseCode targetNodeId ty orig st courseData hfind i _
    simp only [addRequirementGraphElements, hfind]
    rw [pushEdgeIfAbsent_nodes, mem_ids_pushNodeIfAbsent]
    simp [courseRefsAll]
  · intro courseCode targetNodeId ty orig st hfind i hi
    have hne : i ≠ courseCode := by
      rintro rfl
      have hsome := (findCourse_isSome_iff cat i).mpr hi
      rw [hfind] at hsome
      simp at hsome
    simp only [addRequirementGraphElements, hfind]
    simp [courseRefsAll, hne]
  · intro operator conds targetNodeId ty orig st cnt oper logicNodeGroup logicNodeId st0
      st1 st2 ih i hi
    have hne : i ≠ logicNodeId := by
      obtain ⟨c, hc, hcode⟩ := List.mem_map.mp hi
      rintro rfl
      exact (hpfx c hc (orig ++ "_" ++ ty ++ "_" ++ oper ++ "_" ++ Nat.repr cnt)).1 hcode
    have hmid : i ∈ st2.nodes.map (·.id) ↔ i ∈ st.nodes.map (·.id) := by
      rw [show st2.nodes = st1.nodes from pushEdgeIfAbsent_nodes st1 _,
        mem_ids_pushNodeIfAbsent]
      simp [hne]
    show i ∈ (addRequirementGraphElements.addRequirementList cat conds logicNodeId ty orig
      st2).nodes.map (·.id) ↔ _
    rw [ih i hi, hmid]
    simp [courseRefsAll]
  · intro text targetNodeId ty orig st i hi
    have hne : i ≠ "textual_" ++ (orig ++ "_" ++ ty ++ "_" ++ Nat.repr (st.idc.textual + 1)) := by
      obtain ⟨c, hc, hcode⟩ := List.mem_map.mp hi
      rintro rfl
      exact (hpfx c hc (orig ++ "_" ++ ty ++ "_" ++ Nat.repr (st.idc.textual + 1))).2.1 hcode
    simp only [addRequirementGraphElements]
    rw [pushEdgeIfAbsent_nodes, mem_ids_pushNodeIfAbsent]
    simp [courseRefsAll, hne]
  · intro conds targetNodeId ty orig st cnt orNodeId st0 st1 st2 ih i hi
    have hne : i ≠ orNodeId := by
      obtain ⟨c, hc, hcode⟩ := List.mem_map.mp hi
      rintro rfl
      exact (hpfx c hc (orig ++ "_" ++ ty ++ "_OR_N_OF_1_" ++ Nat.repr cnt)).1 hcode
    have hmid : i ∈ st2.nodes.map (·.id) ↔ i ∈ st.nodes.map (·.id) := by
      rw [show st2.nodes = st1.nodes from pushEdgeIfAbsent_nodes st1 _,
        mem_ids_pushNodeIfAbsent]
      simp [hne]
    show i ∈ (addRequirementGraphElements.addRequirementList cat conds orNodeId ty orig
      st2).nodes.map (·.id) ↔ _
    rw [ih i hi, hmid]
    simp [courseRefsAll]
  · intro count conds targetNodeId ty orig st hcount cnt nOfListNodeId nodeLabel st0 st1
      st2 ih i hi
    have hne : i ≠ nOfListNodeId := by
      obtain ⟨c, hc, hcode⟩ := List.mem_map.mp hi
      rintro rfl
      exact (hpfx c hc
        (orig ++ "_" ++ ty ++ "_" ++ Nat.repr count ++ "_" ++ Nat.repr cnt)).2.2 hcode
    have hmid : i ∈ st2.nodes.map (·.id) ↔ i ∈ st.nodes.map (·.id) := by
      rw [show st2.nodes = st1.nodes from pushEdgeIfAbsent_nodes st1 _,
        mem_ids_pushNodeIfAbsent]
      simp [hne]
    have hgoal : i ∈ (addRequirementGraphElements cat (.nOfList count conds) targetNodeId
        ty orig st).nodes.map (·.id) ↔
        i ∈ (addRequirementGraphElements.addRequirementList cat conds nOfListNodeId ty orig
          st2).nodes.map (·.id) := by
      rw [show addRequirementGraphElements cat (.nOfList count conds) targetNodeId ty orig st
        = addRequirementGraphElements.addRequirementList cat conds nOfListNodeId ty orig st2
        from by simp only [addRequirementGraphElements, if_neg hcount]]
    rw [hgoal, ih i hi, hmid]
    simp [courseRefsAll]
  · intro tgt ty orig st i _
    simp [addRequirementGraphElements.addRequirementList, courseRefsAll.courseRefsAllList]
  · intro r rs tgt ty orig st ihr ihrs i hi
    have hshow : addRequirementGraphElements.addRequirementList cat (r :: rs) tgt ty orig st
        = addRequirementGraphElements.addRequirementList cat rs tgt ty orig
          (addRequirementGraphElements cat r tgt ty orig st) := rfl
    rw [hshow, ihrs i hi, ihr i hi]
    simp only [courseRefsAll.courseRefsAllList, List.mem_append]
    tauto

theorem addReqList_catNode_mem (cat : List Course)
    (hpfx : ∀ c ∈ cat, ∀ s : String,
      c.code ≠ "logic_" ++ s ∧ c.code ≠ "textual_" ++ s ∧ c.code ≠ "n_of_list_" ++ s) :
    ∀ (rs : List Req) (tgt ty orig : String) (st : BuildSt),
      ∀ i, i ∈ catCodes cat →
      (i ∈ (addRequirementGraphElements.addRequirementList cat rs tgt ty orig st).nodes.map
          (·.id) ↔
        i ∈ st.nodes.map (·.id) ∨ i ∈ courseRefsAll.courseRefsAllList rs) := by
  intro rs
  induction rs with
  | nil =>
      intro tgt ty orig st i _
      simp [addRequirementGraphElements.addRequirementList, courseRefsAll.courseRefsAllList]
  | cons r rest ih =>
      intro tgt ty orig st i hi
      have hshow : addRequirementGraphElements.addRequirementList cat (r :: rest) tgt ty orig
          st = addRequirementGraphElements.addRequirementList cat rest tgt ty orig
            (addRequirementGraphElements cat r tgt ty orig st) := rfl
      rw [hshow, ih tgt ty orig _ i hi, addReq_catNode_mem cat hpfx r tgt ty orig st i hi]
      simp only [courseRefsAll.courseRefsAllList, List.mem_append]
      tauto

theorem processCourseCode_catNode_mem (cat : List Course)
    (hpfx : ∀ c ∈ cat, ∀ s : String,
      c.code ≠ "logic_" ++ s ∧ c.code ≠ "textual_" ++ s ∧ c.code ≠ "n_of_list_" ++ s)
    (st : BuildSt) (x i : String) (hi : i ∈ catCodes cat) :
    i ∈ (processCourseCode cat st x).nodes.map (·.id) ↔
      i ∈ st.nodes.map (·.id) ∨ viaCourse cat i x := by
  unfold processCourseCode
  cases hfind : findCourse cat x with
  | none => simp [viaCourse, hfind]
  | some course =>
      rw [addReqList_catNode_mem cat hpfx _ _ _ _ _ i hi,
        addReqList_catNode_mem cat hpfx _ _ _ _ _ i hi]
      have hst1 : i ∈ ({ st with nodes := st.nodes ++
          [{ id := course.code, label := course.code,
             title := course.code ++ ": " ++ course.title,
             group := extractGroup course.code, size := none }] } : BuildSt).nodes.map (·.id)
          ↔ i ∈ st.nodes.map (·.id) ∨ i = course.code := by
        simp [List.mem_append, eq_comm]
      rw [hst1]
      simp only [viaCourse, hfind, Option.some.injEq, courseRefs, List.mem_append]
      constructor
      · rintro (((h | h) | h) | h)
        · exact Or.inl h
        · exact Or.inr ⟨course, rfl, Or.inl h⟩
        · exact Or.inr ⟨course, rfl, Or.inr (Or.inl h)⟩
        · exact Or.inr ⟨course, rfl, Or.inr (Or.inr h)⟩
      · rintro (h | ⟨c, rfl, (h | (h | h))⟩)
        · exact Or.inl (Or.inl (Or.inl h))
        · exact Or.inl (Or.inl (Or.inr h))
        · exact Or.inl (Or.inr h)
        · exact Or.inr h

theorem foldl_processCourseCode_catNode_mem (cat : List Course)
    (hpfx : ∀ c ∈ cat, ∀ s : String,
      c.code ≠ "logic_" ++ s ∧ c.code ≠ "textual_" ++ s ∧ c.code ≠ "n_of_list_" ++ s) :
    ∀ (codes : List String) (st : BuildSt) (i : String), i ∈ catCodes cat →
      (i ∈ (codes.foldl (processCourseCode cat) st).nodes.map (·.id) ↔
        i ∈ st.nodes.map (·.id) ∨ ∃ x ∈ codes, viaCourse cat i x) := by
  intro codes
  induction codes with
  | nil => intro st i _; simp
  | cons c rest ih =>
      intro st i hi
      rw [List.foldl_cons, ih _ i hi, processCourseCode_catNode_mem cat hpfx st c i hi]
      constructor
      · rintro ((h | h) | ⟨x, hx, hv⟩)
        · exact Or.inl h
        · exact Or.inr ⟨c, List.mem_cons_self _ _, h⟩
        · exact Or.inr ⟨x, List.mem_cons_of_mem _ hx, hv⟩
      · rintro (h | ⟨x, hx, hv⟩)
        · exact Or.inl (Or.inl h)
        · rcases List.mem_cons.mp hx with rfl | hx
          · exact Or.inl (Or.inr hv)
          · exact Or.inr ⟨x, hx, hv⟩

theorem mem_ids_iff_find? (l : List GNode) (i : String) :
    i ∈ l.map (·.id) ↔ (l.find? (fun n => n.id == i)).isSome := by
  simp only [List.find?_isSome, List.mem_map, beq_iff_eq]

theorem mem_ids_dedupNodesGo (l : List GNode) (i : String) :
    i ∈ (dedupNodesGo [] l).map (·.id) ↔ i ∈ l.map (·.id) := by
  rw [mem_ids_iff_find?, mem_ids_iff_find?, dedupNodesGo_find? l [] i (by simp)]

/-- Characterization of the catalog-code node IDs of a full build: a catalog
code appears in the displayed graph exactly when some display-list code
resolves to a course record that is it or references it. -/
theorem displayGraph_catNode_mem (cat : List Course)
    (hpfx : ∀ c ∈ cat, ∀ s : String,
      c.code ≠ "logic_" ++ s ∧ c.code ≠ "textual_" ++ s ∧ c.code ≠ "n_of_list_" ++ s)
    (codes : List String) (i : String) (hi : i ∈ catCodes cat) :
    i ∈ (displayGraphForCourses cat codes).nodes.map (·.id) ↔
      ∃ x ∈ codes, viaCourse cat i x := by
  unfold displayGraphForCourses
  split
  · rename_i hempty
    have hnil : codes = [] := List.isEmpty_iff.mp hempty
    subst hnil
    simp
  · show i ∈ (dedupNodesGo [] (generateGraphElements cat codes).nodes).map (·.id) ↔ _
    rw [mem_ids_dedupNodesGo]
    unfold generateGraphElements
    rw [foldl_processCourseCode_catNode_mem cat hpfx _ _ i hi]
    simp only [List.map_nil, List.not_mem_nil, false_or]
    constructor
    · rintro ⟨x, hx, hv⟩
      exact ⟨x, (mem_dedupKeepFirst x codes).mp hx, hv⟩
    · rintro ⟨x, hx, hv⟩
      exact ⟨x, (mem_dedupKeepFirst x codes).mpr hx, hv⟩

/-! ## C4: determinism and order-(in)dependence of the build -/

/-- A catalog where both courses carry one AND-junction prerequisite, so the
pass-global junction ordinal is exercised. -/
def sampleCatLogic : List Course :=
  [{ code := "AA", title := "Course AA",
     prerequisites_parsed := [.logical "and" []], corequisites_parsed := [] },
   { code := "BB", title := "Course BB",
     prerequisites_parsed := [.logical "and" []], corequisites_parsed := [] }]

/-- C4, counterexample: the two display lists hold the same set of codes in
different orders, yet the builds' node ID sets differ — junction IDs embed a
counter that is global to the build pass, so they depend on traversal
order. -/
theorem c4_counterexample :
    (["AA", "BB"] : List String).Perm ["BB", "AA"] ∧
    "logic_AA_prereq_AND_1" ∈
      (displayGraphForCourses sampleCatLogic ["AA", "BB"]).nodes.map (·.id) ∧
    "logic_AA_prereq_AND_1" ∉
      (displayGraphForCourses sampleCatLogic ["BB", "AA"]).nodes.map (·.id) := by
  refine ⟨List.Perm.swap "BB" "AA" [], by decide, by decide⟩

/-- C4, amended: the build is a pure function of the display list, and for
every two display lists that are permutations of each other the builds
agree on the set of course-code node IDs (provided no catalog code strays
into the reserved junction-ID namespaces); only the synthetic junction and
textual node IDs — and the edge IDs built from them — may differ with
traversal order, as the counterexample shows. -/
theorem c4_theorem (cat : List Course)
    (hpfx : ∀ c ∈ cat, ∀ s : String,
      c.code ≠ "logic_" ++ s ∧ c.code ≠ "textual_" ++ s ∧ c.code ≠ "n_of_list_" ++ s)
    (l1 l2 : List String) (hperm : l1.Perm l2) (i : String) (hi : i ∈ catCodes cat) :
    (i ∈ (displayGraphForCourses cat l1).nodes.map (·.id) ↔
      i ∈ (displayGraphForCourses cat l2).nodes.map (·.id)) := by
  rw [displayGraph_catNode_mem cat hpfx l1 i hi, displayGraph_catNode_mem cat hpfx l2 i hi]
  constructor
  · rintro ⟨x, hx, hv⟩
    exact ⟨x, hperm.mem_iff.mp hx, hv⟩
  · rintro ⟨x, hx, hv⟩
    exact ⟨x, hperm.mem_iff.mpr hx, hv⟩

/-- Witness for `c4_theorem` on the counterexample catalog: the course-code
ID `AA` is present in both permuted builds. -/
theorem c4_witness :
    ("AA" ∈ (displayGraphForCourses sampleCatLogic ["AA", "BB"]).nodes.map (·.id) ↔
      "AA" ∈ (displayGraphForCourses sampleCatLogic ["BB", "AA"]).nodes.map (·.id)) :=
  c4_theorem sampleCatLogic
    (by
      intro c hc s
      fin_cases hc <;>
        exact ⟨string_ne_append_of_length_lt _ s _ (by decide),
          string_ne_append_of_length_lt _ s _ (by decide),
          string_ne_append_of_length_lt _ s _ (by decide)⟩)
    ["AA", "BB"] ["BB", "AA"] (List.Perm.swap "BB" "AA" []) "AA" (by decide)
